import Mathlib

/-!
Verification of the µCal calendar library (C99).

This file gives a shallow embedding of the µCal sources
(`src/common.c`, `src/gregorian.c`, `src/julian.c`, `src/isoweek.c`,
`src/ntpdate.c`, `src/gpsdate.c`, `src/tsdecode.c`, `src/tzposix.c`)
into Lean, and proves or refutes the specified properties.

Conventions of the embedding:
* C `uint32_t` / `uint64_t` values are `Nat` with explicit reduction
  `% 4294967296` (resp. `% 18446744073709551616`) wherever the C
  computation can wrap.
* C `int32_t` / `int64_t` / `time_t` values are `Int`; casts between
  signed and unsigned are made explicit through `u32ofInt` (value of a
  cast to `uint32_t`) and `ucal_u32_i32` (the source's own
  unsigned-to-signed reinterpretation helper).
* Where a C function is provided in two compile-time variants (one for
  targets with wide registers, one Granlund-Möller based for narrow
  targets), the wide-register variant is embedded; the Granlund-Möller
  core step itself (`ucal_u32DivGM`) is embedded and verified separately.
* `errno`-style side channels are modelled by returning a `Bool` flag
  (`true` means the function raised the corresponding `errno`) next to
  the ordinary return value.
* Output parameters become explicit state: a function writing through a
  pointer takes the old pointee value and returns the new one.
-/

namespace UCal

/-! ### Generic facts about the bit operations used by the source -/

/-- The low bit of `x ||| 1` is set. -/
theorem or_one_mod_two (x : Nat) : (x ||| 1) % 2 = 1 := by
  have h : (x ||| 1).testBit 0 = true := by
    rw [Nat.testBit_or]; simp
  rw [Nat.testBit_zero] at h
  exact of_decide_eq_true h

/-- The low bit of `x ||| 3` is set. -/
theorem or_three_mod_two (x : Nat) : (x ||| 3) % 2 = 1 := by
  have h : (x ||| 3).testBit 0 = true := by
    rw [Nat.testBit_or]; simp
  rw [Nat.testBit_zero] at h
  exact of_decide_eq_true h

/-- Arithmetic description of the `sday |= 3` step of the source: OR-ing
with 3 forces the two low bits. -/
theorem or_three_eq (x : Nat) : (x ||| 3) = 4 * (x / 4) + 3 := by
  have e1 : (x ||| 3) / 2 = (x / 2) ||| (3 / 2) := @Nat.or_div_two x 3
  have e2 : ((x / 2) ||| 1) / 2 = (x / 2 / 2) ||| (1 / 2) := @Nat.or_div_two (x / 2) 1
  have e3 := or_three_mod_two x
  have e4 := or_one_mod_two (x / 2)
  norm_num at e1 e2
  omega

/-- XOR with an all-ones word is complement, i.e. subtraction from the
all-ones word.  This is the identity behind the C mask idiom
`m ^ v` with `m = 0xFF…F`. -/
theorem xor_ones (w : Nat) : ∀ x : Nat, x < 2 ^ w → x ^^^ (2 ^ w - 1) = 2 ^ w - 1 - x := by
  induction w with
  | zero =>
    intro x hx
    interval_cases x
    decide
  | succ w ih =>
    intro x hx
    have hP : 2 ^ (w + 1) = 2 * 2 ^ w := by rw [pow_succ]; ring
    have hx2 : x / 2 < 2 ^ w := by omega
    have h1 : (x ^^^ (2 ^ (w + 1) - 1)) / 2 = (x / 2) ^^^ ((2 ^ (w + 1) - 1) / 2) :=
      Nat.xor_div_two
    have h2 : (2 ^ (w + 1) - 1) / 2 = 2 ^ w - 1 := by omega
    have h3 := ih (x / 2) hx2
    have h4 : (x ^^^ (2 ^ (w + 1) - 1)) % 2 = (x + (2 ^ (w + 1) - 1)) % 2 :=
      Nat.xor_mod_two_eq
    have hpos : 0 < 2 ^ w := Nat.pos_pow_of_pos w (by norm_num)
    rw [h2, h3] at h1
    omega

/-! ### Machine-word helpers -/

/-- Truncation of a `Nat` to 32 bits (value of a C cast to `uint32_t`). -/
def chop32 (n : Nat) : Nat := n % 4294967296

/-- Value of the C cast of a signed value to `uint32_t` (two's complement). -/
def u32ofInt (i : Int) : Nat := (i % 4294967296).toNat

/-- Value of the C cast of a signed value to `uint64_t` (two's complement). -/
def u64ofInt (i : Int) : Nat := (i % 18446744073709551616).toNat

/-- C `uint32_t` subtraction `a - b` (wrap-around), for `a` already reduced. -/
def sub32 (a b : Nat) : Nat := (a + 4294967296 - chop32 b) % 4294967296

/-- C `uint32_t` addition `a + b` (wrap-around). -/
def add32 (a b : Nat) : Nat := (a + b) % 4294967296

/-- C `uint32_t` complement `~x`. -/
def not32 (x : Nat) : Nat := x ^^^ 4294967295

/-- XOR of a 32-bit word with the mask `-(neg)` (all-ones when `neg`). -/
def mnot32 (neg : Bool) (x : Nat) : Nat := if neg then not32 x else x

/-- XOR of a 64-bit word with the mask `-(neg)` (all-ones when `neg`). -/
def mnot64 (neg : Bool) (x : Nat) : Nat := if neg then x ^^^ 18446744073709551615 else x

/-- From `common.h`: reinterpretation of a `uint32_t` as `int32_t`
(`(v > INT32_MAX) ? -(int32_t)(~v) - 1 : (int32_t)v`). -/
def ucal_u32_i32 (v : Nat) : Int :=
  if v > 2147483647 then -((4294967295 - v : Nat) : Int) - 1 else (v : Int)

/-- The C mask idiom for signed-by-unsigned floor division on 32-bit
words: `m = -(n < 0); q = m ^ ((m ^ (uint32_t)n) / d)`. -/
def maskDiv32 (n : Int) (d : Nat) : Nat :=
  mnot32 (decide (n < 0)) ((mnot32 (decide (n < 0)) (u32ofInt n)) / d)

/-- The C mask idiom for signed-by-unsigned floor division on 64-bit
words. -/
def maskDiv64 (n : Int) (d : Nat) : Nat :=
  mnot64 (decide (n < 0)) ((mnot64 (decide (n < 0)) (u64ofInt n)) / d)

theorem not32_eq {x : Nat} (h : x < 4294967296) : not32 x = 4294967295 - x := by
  have h32 : x < 2 ^ 32 := by norm_num; omega
  have := xor_ones 32 x h32
  norm_num at this
  simpa [not32] using this

/-- Floor division of a negative numerator by a positive denominator,
expressed through the ones'-complement of the numerator.  This identity
is what makes the C mask idiom work. -/
theorem ediv_neg_eq (n : Int) (d : Nat) (hd : 0 < d) (hn : n < 0) :
    n / (d : Int) = -(((-n - 1) / d)) - 1 := by
  have hd' : (0 : Int) < d := by exact_mod_cast hd
  have h1 : (-n - 1) % d + (-n - 1) / d * d = -n - 1 := Int.emod_add_ediv' _ _
  have h2 : 0 ≤ (-n - 1) % d := Int.emod_nonneg _ (by omega)
  have h3 : (-n - 1) % d < d := Int.emod_lt_of_pos _ hd'
  refine ((@Int.ediv_emod_unique n (d : Int) ((d : Int) - 1 - (-n - 1) % d)
    (-(((-n - 1) / d)) - 1) hd').mpr ⟨?_, by omega, by omega⟩).1
  have hexp : (d : Int) * (-(((-n - 1) / d)) - 1) = -((-n - 1) / d * d) - d := by ring
  linarith [h1, hexp]

/-- The mask idiom computes the 32-bit unsigned representative of the
mathematical floor quotient. -/
theorem maskDiv32_eq (n : Int) (d : Nat) (hd : 0 < d)
    (h1 : -4294967296 < n) (h2 : n < 4294967296) :
    maskDiv32 n d = ((n / d) % 4294967296).toNat := by
  unfold maskDiv32 mnot32 u32ofInt
  simp only [decide_eq_true_eq]
  by_cases hn : n < 0
  · simp only [if_pos hn]
    have hx : (n % 4294967296).toNat = (n + 4294967296).toNat := by omega
    have hxlt : (n + 4294967296).toNat < 4294967296 := by omega
    have hnot1 : not32 ((n + 4294967296).toNat) = (-n - 1).toNat := by
      rw [not32_eq hxlt]; omega
    rw [hx, hnot1]
    have hqlt : (-n - 1).toNat / d < 4294967296 :=
      Nat.lt_of_le_of_lt (Nat.div_le_self _ _) (by omega)
    rw [not32_eq hqlt]
    have hdivcast : (((-n - 1).toNat / d : Nat) : Int) = (-n - 1) / d := by
      have : ((-n - 1).toNat : Int) = -n - 1 := by omega
      rw [show (((-n - 1).toNat / d : Nat) : Int) = ((-n - 1).toNat : Int) / (d : Int) from rfl,
        this]
    rw [ediv_neg_eq n d hd hn, ← hdivcast]
    obtain ⟨A, hAeq⟩ : ∃ A : Nat, (-n - 1).toNat / d = A := ⟨_, rfl⟩
    rw [hAeq] at hqlt ⊢
    omega
  · simp only [if_neg hn]
    have hx : (n % 4294967296).toNat = n.toNat := by omega
    rw [hx]
    have hdivcast : ((n.toNat / d : Nat) : Int) = n / d := by
      have : (n.toNat : Int) = n := by omega
      rw [show ((n.toNat / d : Nat) : Int) = (n.toNat : Int) / (d : Int) from rfl, this]
    have hqlt : n.toNat / d < 4294967296 :=
      Nat.lt_of_le_of_lt (Nat.div_le_self _ _) (by omega)
    rw [← hdivcast]
    obtain ⟨A, hAeq⟩ : ∃ A : Nat, n.toNat / d = A := ⟨_, rfl⟩
    rw [hAeq] at hqlt ⊢
    omega

/-- Wrap-around difference is the remainder: the step
`r = (uint32_t)n - q * d` of the mask idiom yields the mathematical
floor remainder. -/
theorem maskDivRem32_eq (n : Int) (d : Nat) (hd : 0 < d) (hdle : d ≤ 4294967296)
    (h1 : -4294967296 < n) (h2 : n < 4294967296) :
    sub32 (u32ofInt n) (maskDiv32 n d * d) = (n % d).toNat := by
  rw [maskDiv32_eq n d hd h1 h2]
  have hd' : (0 : Int) < d := by exact_mod_cast hd
  have hdle' : (d : Int) ≤ 4294967296 := by exact_mod_cast hdle
  obtain ⟨Q, R, hQR, hR1, hR2⟩ : ∃ Q R : Int, n = (d : Int) * Q + R ∧ 0 ≤ R ∧ R < d :=
    ⟨n / d, n % d, by rw [Int.ediv_add_emod], Int.emod_nonneg _ (by omega),
      Int.emod_lt_of_pos _ hd'⟩
  have hu := (@Int.ediv_emod_unique n (d : Int) R Q hd').mpr ⟨by linarith [hQR], hR1, hR2⟩
  rw [hu.1, hu.2]
  have e2 : (4294967296 : Int) * (Q / 4294967296) + Q % 4294967296 = Q :=
    Int.ediv_add_emod _ _
  have e4 : ((Q % 4294967296).toNat : Int) = Q % 4294967296 := by omega
  have hkey : (((Q % 4294967296).toNat * d : Nat) : Int) =
      n - R - 4294967296 * ((Q / 4294967296) * d) := by
    push_cast
    rw [e4]
    linear_combination (d : Int) * e2 - hQR
  unfold sub32 chop32 u32ofInt
  have hsub : ∀ a b : Nat, a < 4294967296 →
      ((a + 4294967296 - b % 4294967296) % 4294967296 : Nat) = ((a - b : Int) % 4294967296).toNat := by
    intro a b ha
    omega
  rw [hsub _ _ (by omega)]
  have em : (4294967296 : Int) * (n / 4294967296) + n % 4294967296 = n := Int.ediv_add_emod _ _
  have hfin : (((n % 4294967296).toNat : Int) - (((Q % 4294967296).toNat * d : Nat) : Int))
      % 4294967296 = R := by
    rw [hkey]
    have hc : ((n % 4294967296).toNat : Int) = n % 4294967296 := by omega
    rw [hc]
    have hsplit : n % 4294967296 - (n - R - 4294967296 * (Q / 4294967296 * d))
        = R + 4294967296 * (Q / 4294967296 * d - n / 4294967296) := by
      linear_combination em
    rw [hsplit]
    rw [Int.add_mul_emod_self_left]
    omega
  rw [hfin]

/-- Reinterpreting the 32-bit representative of an `int32_t`-ranged value
recovers the value. -/
theorem u32_i32_wrap (i : Int) (h1 : -2147483648 ≤ i) (h2 : i < 2147483648) :
    ucal_u32_i32 ((i % 4294967296).toNat) = i := by
  unfold ucal_u32_i32
  split <;> omega

/-- Quotients of a double-range value by a divisor of at least two stay
inside the `int32_t` range. -/
theorem ediv_range (n : Int) (d : Nat) (hd : 2 ≤ d)
    (h1 : -4294967296 < n) (h2 : n < 4294967296) :
    -2147483648 ≤ n / d ∧ n / d < 2147483648 := by
  have hd' : (2 : Int) ≤ (d : Int) := by exact_mod_cast hd
  have hd0 : (0 : Int) < (d : Int) := by omega
  obtain ⟨Q, R, hQR, hR1, hR2⟩ : ∃ Q R : Int, n = (d : Int) * Q + R ∧ 0 ≤ R ∧ R < d :=
    ⟨n / d, n % d, by rw [Int.ediv_add_emod], Int.emod_nonneg _ (by omega),
      Int.emod_lt_of_pos _ hd0⟩
  have hu := (@Int.ediv_emod_unique n (d : Int) R Q hd0).mpr ⟨by linarith [hQR], hR1, hR2⟩
  rw [hu.1]
  constructor
  · by_contra hc
    push_neg at hc
    have hQ1 : Q + 1 ≤ 0 := by omega
    have hp : ((d : Int) - 2) * (Q + 1) ≤ 0 :=
      mul_nonpos_iff.mpr (Or.inl ⟨by linarith, hQ1⟩)
    have he : ((d : Int) - 2) * (Q + 1) = (d : Int) * Q + (d : Int) - 2 * Q - 2 := by ring
    omega
  · by_contra hc
    push_neg at hc
    have hp : 0 ≤ ((d : Int) - 2) * Q :=
      mul_nonneg (by linarith) (by linarith)
    have he : ((d : Int) - 2) * Q = (d : Int) * Q - 2 * Q := by ring
    omega

/-- Values congruent mod `2^32` and in range are computed exactly by the
wrap-around difference. -/
theorem sub32_eq_of_modeq (a b : Nat) (R : Int) (ha : a < 4294967296)
    (hR : 0 ≤ R) (hR2 : R < 4294967296)
    (hcong : ((a : Int) - (b : Int)) % 4294967296 = R % 4294967296) :
    (sub32 a b : Int) = R := by
  unfold sub32 chop32
  omega

/-! ### Embedding of `common.c` -/

/-- Month length table, regular (`_ucal_mdtab` from `common.c`); index 0 is
January. -/
def ucal_mdtab (leap : Bool) : List Nat :=
  if leap then [31, 29, 31, 30, 31, 30, 31, 31, 30, 31, 30, 31]
  else [31, 28, 31, 30, 31, 30, 31, 31, 30, 31, 30, 31]

/-- Month length table, shifted for a year starting at March
(`_ucal_sdtab` from `common.c`); index 0 is March. -/
def ucal_sdtab (leap : Bool) : List Nat :=
  if leap then [31, 30, 31, 30, 31, 31, 30, 31, 30, 31, 31, 29]
  else [31, 30, 31, 30, 31, 31, 30, 31, 30, 31, 31, 28]

/-- Arithmetic shift right (`ucal_i32Asr` from `common.h`).  Both C
variants (native shift, or mask idiom) compute the sign-preserving
shift, which is the floor division by `2^s`. -/
def ucal_i32Asr (v : Int) (s : Nat) : Int := v / ((2 ^ s : Nat) : Int)

/-- Arithmetic shift right on 64 bits (`ucal_i64Asr` from `common.h`). -/
def ucal_i64Asr (v : Int) (s : Nat) : Int := v / ((2 ^ s : Nat) : Int)

/-- From `common.h`: `ucal_iu32Div`, floor divmod of an `int32_t` by a
`uint32_t`, computed with the mask idiom; the remainder is the
wrap-around difference `(uint32_t)n - q * d`. -/
def ucal_iu32Div (n : Int) (d : Nat) : Int × Nat :=
  let q := maskDiv32 n d
  (ucal_u32_i32 q, sub32 (u32ofInt n) (q * d))

/-- From `common.h`: `ucal_iu32SubDiv`, floor divmod of `a - b` by `d`,
with wrap-around subtraction `(uint32_t)a - (uint32_t)b` and the mask
`-(a < b)`. -/
def ucal_iu32SubDiv (a b : Int) (d : Nat) : Int × Nat :=
  let n := sub32 (u32ofInt a) (u32ofInt b)
  let q := mnot32 (decide (a < b)) ((mnot32 (decide (a < b)) n) / d)
  (ucal_u32_i32 q, sub32 n (q * d))

/-- From `common.h`: `ucal_i32Mod7`; the operand is folded into a positive
sum (computed on `uint32_t`) that is congruent mod 7, then reduced. -/
def ucal_i32Mod7 (x : Int) : Int :=
  ((u32ofInt (917504 + x % 32768 + ucal_i32Asr x 15)) % 7 : Nat)

/-- From `common.h`: `ucal_i32AddMod7`. -/
def ucal_i32AddMod7 (a b : Int) : Int :=
  ((u32ofInt (917504 + a % 32768 + ucal_i32Asr a 15 + b % 32768 + ucal_i32Asr b 15)) % 7 : Nat)

/-- From `common.h`: `ucal_i32SubMod7`. -/
def ucal_i32SubMod7 (a b : Int) : Int :=
  ((u32ofInt (917504 + a % 32768 + ucal_i32Asr a 15 - b % 32768 - ucal_i32Asr b 15)) % 7 : Nat)

/-- From `common.c`: `ucal_u32DivGM`, the Granlund-Möller core division
step, on `uint32_t` words (the accumulator is a `uint64_t`). -/
def ucal_u32DivGM (u1 u0 d v : Nat) : Nat × Nat :=
  let accu := (u1 * v + u0) % 18446744073709551616
  let q0 := accu % 4294967296
  let q1 := (accu / 4294967296 + u1 + 1) % 4294967296
  let r0 := sub32 u0 (q1 * d)
  let s1 := if r0 > q0 then (sub32 q1 1, add32 r0 d) else (q1, r0)
  if s1.2 ≥ d then (add32 s1.1 1, s1.2 - d) else s1

/-- From `common.c`: `ucal_DaysToMonth` (month split on the unshifted
calendar, with the 30-day-February padding). -/
def ucal_DaysToMonth (ed : Nat) (isLY : Bool) : Nat × Nat :=
  let skipdays := 1 + (if isLY then 0 else 1)
  let ed1 := if ed ≥ 61 - skipdays then ed + skipdays else ed
  let m := (ed1 * 67 + 32) / 2048
  (m, ed1 - (m * 489 + 8) / 16)

/-- From `common.c`: `ucal_MonthsToDays` (month to accumulated days on the
shifted calendar; the division `(m + 9) / 12` uses the mask idiom). -/
def ucal_MonthsToDays (m : Int) : Int × Nat :=
  let em := m + 9
  let qm := maskDiv32 em 12
  let em1 := sub32 (u32ofInt em) (qm * 12)
  (ucal_u32_i32 qm, (979 * em1 + 16) / 32)

/-- From `common.c`: `checkedAdd`; `avail` is computed as the wrap-around
difference `(uint32_t)INT32_MAX - (uint32_t)rdn`, and the non-saturating
`rdn += shift` is an `int32_t`/`unsigned` mixed addition (wrap-around).
The `Bool` component models `errno == ERANGE`. -/
def checkedAdd (rdn : Int) (shift : Nat) : Int × Bool :=
  let avail := sub32 (u32ofInt 2147483647) (u32ofInt rdn)
  if shift > avail then (2147483647, true)
  else (ucal_u32_i32 (add32 (u32ofInt rdn) shift), false)

/-- From `common.c`: `checkedSub`; `avail` is the wrap-around difference
`(uint32_t)rdn - (uint32_t)INT32_MAX`, and `rdn -= shift` is a
wrap-around subtraction. -/
def checkedSub (rdn : Int) (shift : Nat) : Int × Bool :=
  let avail := sub32 (u32ofInt rdn) (u32ofInt 2147483647)
  if shift > avail then (-2147483648, true)
  else (ucal_u32_i32 (sub32 (u32ofInt rdn) shift), false)

/-- From `common.c`: `ucal_WdGT`. -/
def ucal_WdGT (rdn : Int) (wd : Int) : Int × Bool :=
  checkedAdd rdn ((ucal_i32SubMod7 (wd - 1) rdn).toNat + 1)

/-- From `common.c`: `ucal_WdGE`. -/
def ucal_WdGE (rdn : Int) (wd : Int) : Int × Bool :=
  checkedAdd rdn (ucal_i32SubMod7 wd rdn).toNat

/-- From `common.c`: `ucal_WdLE`. -/
def ucal_WdLE (rdn : Int) (wd : Int) : Int × Bool :=
  checkedSub rdn (ucal_i32SubMod7 rdn wd).toNat

/-- From `common.c`: `ucal_WdLT`. -/
def ucal_WdLT (rdn : Int) (wd : Int) : Int × Bool :=
  checkedSub rdn ((ucal_i32SubMod7 rdn (wd + 1)).toNat + 1)

/-! ### Characterizations of the `common.c` helpers -/

theorem iu32Div_eq (n : Int) (d : Nat) (hd : 2 ≤ d) (hdle : d ≤ 4294967296)
    (h1 : -4294967296 < n) (h2 : n < 4294967296) :
    ucal_iu32Div n d = (n / d, (n % d).toNat) := by
  obtain ⟨hq1, hq2⟩ := ediv_range n d hd h1 h2
  show (ucal_u32_i32 (maskDiv32 n d), sub32 (u32ofInt n) (maskDiv32 n d * d))
    = (n / d, (n % d).toNat)
  rw [maskDivRem32_eq n d (by omega) hdle (by omega) (by omega)]
  rw [maskDiv32_eq n d (by omega) (by omega) (by omega)]
  rw [u32_i32_wrap _ hq1 hq2]

theorem iu32SubDiv_eq (a b : Int) (d : Nat) (hd : 2 ≤ d) (hdle : d ≤ 4294967296)
    (ha1 : -2147483648 ≤ a) (ha2 : a < 2147483648)
    (hb1 : -2147483648 ≤ b) (hb2 : b < 2147483648) :
    ucal_iu32SubDiv a b d = ((a - b) / d, ((a - b) % d).toNat) := by
  have hn : sub32 (u32ofInt a) (u32ofInt b) = u32ofInt (a - b) := by
    unfold sub32 chop32 u32ofInt
    omega
  have hm : decide (a < b) = decide ((a - b) < 0) := by
    by_cases h : a < b
    · rw [decide_eq_true h, decide_eq_true (by omega : a - b < 0)]
    · rw [decide_eq_false h, decide_eq_false (by omega : ¬(a - b < 0))]
  have heq : ucal_iu32SubDiv a b d = ucal_iu32Div (a - b) d := by
    unfold ucal_iu32SubDiv ucal_iu32Div maskDiv32
    rw [hn, hm]
  rw [heq]
  exact iu32Div_eq (a - b) d hd hdle (by omega) (by omega)

theorem i32Mod7_eq (x : Int) (h1 : -2147483648 ≤ x) (h2 : x < 2147483648) :
    ucal_i32Mod7 x = x % 7 := by
  have h2pow : ((2 ^ 15 : Nat) : Int) = 32768 := by norm_num
  unfold ucal_i32Mod7 ucal_i32Asr u32ofInt
  rw [h2pow]
  have hSmod : (917504 + x % 32768 + x / 32768) % 4294967296
      = 917504 + x % 32768 + x / 32768 :=
    Int.emod_eq_of_lt (by omega) (by omega)
  rw [hSmod]
  omega

theorem i32AddMod7_eq (a b : Int) (ha1 : -2147483648 ≤ a) (ha2 : a < 2147483648)
    (hb1 : -2147483648 ≤ b) (hb2 : b < 2147483648) :
    ucal_i32AddMod7 a b = (a + b) % 7 := by
  have h2pow : ((2 ^ 15 : Nat) : Int) = 32768 := by norm_num
  unfold ucal_i32AddMod7 ucal_i32Asr u32ofInt
  rw [h2pow]
  have hSmod : (917504 + a % 32768 + a / 32768 + b % 32768 + b / 32768) % 4294967296
      = 917504 + a % 32768 + a / 32768 + b % 32768 + b / 32768 :=
    Int.emod_eq_of_lt (by omega) (by omega)
  rw [hSmod]
  omega

theorem i32SubMod7_eq (a b : Int) (ha1 : -2147483648 ≤ a) (ha2 : a < 2147483648)
    (hb1 : -2147483648 ≤ b) (hb2 : b < 2147483648) :
    ucal_i32SubMod7 a b = (a - b) % 7 := by
  have h2pow : ((2 ^ 15 : Nat) : Int) = 32768 := by norm_num
  unfold ucal_i32SubMod7 ucal_i32Asr u32ofInt
  rw [h2pow]
  have hSmod : (917504 + a % 32768 + a / 32768 - b % 32768 - b / 32768) % 4294967296
      = 917504 + a % 32768 + a / 32768 - b % 32768 - b / 32768 :=
    Int.emod_eq_of_lt (by omega) (by omega)
  rw [hSmod]
  omega

theorem monthsToDays_eq (m : Int) (h1 : -32768 ≤ m) (h2 : m ≤ 32767) :
    ucal_MonthsToDays m = ((m + 9) / 12, (979 * ((m + 9) % 12).toNat + 16) / 32) := by
  show (ucal_u32_i32 (maskDiv32 (m + 9) 12),
      (979 * (sub32 (u32ofInt (m + 9)) (maskDiv32 (m + 9) 12 * 12)) + 16) / 32) = _
  rw [maskDivRem32_eq (m + 9) 12 (by omega) (by omega) (by omega) (by omega)]
  rw [maskDiv32_eq (m + 9) 12 (by omega) (by omega) (by omega)]
  obtain ⟨hq1, hq2⟩ := ediv_range (m + 9) 12 (by omega) (by omega) (by omega)
  rw [u32_i32_wrap _ hq1 hq2]
  norm_num

theorem not64_eq {x : Nat} (h : x < 18446744073709551616) :
    x ^^^ 18446744073709551615 = 18446744073709551615 - x := by
  have h64 : x < 2 ^ 64 := by norm_num; omega
  have := xor_ones 64 x h64
  norm_num at this
  exact this

/-- The 64-bit mask idiom computes the 64-bit unsigned representative of
the mathematical floor quotient. -/
theorem maskDiv64_eq (n : Int) (d : Nat) (hd : 0 < d)
    (h1 : -18446744073709551616 < n) (h2 : n < 18446744073709551616) :
    maskDiv64 n d = ((n / d) % 18446744073709551616).toNat := by
  unfold maskDiv64 mnot64 u64ofInt
  simp only [decide_eq_true_eq]
  by_cases hn : n < 0
  · simp only [if_pos hn]
    have hx : (n % 18446744073709551616).toNat = (n + 18446744073709551616).toNat := by omega
    have hxlt : (n + 18446744073709551616).toNat < 18446744073709551616 := by omega
    have hnot1 : (n + 18446744073709551616).toNat ^^^ 18446744073709551615
        = (-n - 1).toNat := by
      rw [not64_eq hxlt]; omega
    rw [hx, hnot1]
    have hqlt : (-n - 1).toNat / d < 18446744073709551616 :=
      Nat.lt_of_le_of_lt (Nat.div_le_self _ _) (by omega)
    rw [not64_eq hqlt]
    have hdivcast : (((-n - 1).toNat / d : Nat) : Int) = (-n - 1) / d := by
      have hcn : ((-n - 1).toNat : Int) = -n - 1 := by omega
      rw [show (((-n - 1).toNat / d : Nat) : Int) = ((-n - 1).toNat : Int) / (d : Int) from rfl,
        hcn]
    rw [ediv_neg_eq n d hd hn, ← hdivcast]
    obtain ⟨A, hAeq⟩ : ∃ A : Nat, (-n - 1).toNat / d = A := ⟨_, rfl⟩
    rw [hAeq] at hqlt ⊢
    omega
  · simp only [if_neg hn]
    have hx : (n % 18446744073709551616).toNat = n.toNat := by omega
    rw [hx]
    have hdivcast : ((n.toNat / d : Nat) : Int) = n / d := by
      have hcn : (n.toNat : Int) = n := by omega
      rw [show ((n.toNat / d : Nat) : Int) = (n.toNat : Int) / (d : Int) from rfl, hcn]
    have hqlt : n.toNat / d < 18446744073709551616 :=
      Nat.lt_of_le_of_lt (Nat.div_le_self _ _) (by omega)
    rw [← hdivcast]
    obtain ⟨A, hAeq⟩ : ∃ A : Nat, n.toNat / d = A := ⟨_, rfl⟩
    rw [hAeq] at hqlt ⊢
    omega

/-- Two booleans are equal when their truth conditions agree. -/
theorem bool_eq_of_iff {a b : Bool} (h : a = true ↔ b = true) : a = b := by
  cases a <;> cases b <;> simp_all

/-! ### Embedding of `gregorian.c` -/

/-- From `gregorian.h`: `ucal_IsLeapYearGD`, literally
`!(y & 3u) && (!(y & 15u) || (y % 25))`.  The bit tests are euclidean
remainders by powers of two (two's complement); of the truncating `%`
by 25 only zero-ness is used, which coincides with the euclidean one. -/
def ucal_IsLeapYearGD (y : Int) : Bool :=
  (decide (y % 4 = 0)) && ((decide (y % 16 = 0)) || !(decide (y % 25 = 0)))

/-- From `gregorian.c`: `ucal_LeapDaysInYearsGD`.  The in-out-in cascade
runs on the ones' complement for negative input (mask `-(ey < 0)`):
the sequential updates `ud = (uy >>= 2); ud -= (uy /= 25);
ud += (uy >>= 2)` accumulate `uy/4 - uy/100 + uy/400` on unsigned
words. -/
def ucal_LeapDaysInYearsGD (ey : Int) : Int :=
  ucal_u32_i32 (mnot32 (decide (ey < 0))
    (mnot32 (decide (ey < 0)) (u32ofInt ey) / 4
      - mnot32 (decide (ey < 0)) (u32ofInt ey) / 4 / 25
      + mnot32 (decide (ey < 0)) (u32ofInt ey) / 4 / 25 / 4))

/-- The local `q` of `ucal_DaysToYearsGD` (wide-register branch): the
mask-idiom floor division of the 64-bit word `4 * rdn - 1` by 146097,
with sign mask `-(rdn <= 0)`. -/
def dtyQ64 (rdn : Int) : Nat :=
  mnot64 (decide (rdn ≤ 0)) ((mnot64 (decide (rdn ≤ 0)) (u64ofInt (4 * rdn - 1))) / 146097)

/-- The local `sday` of `ucal_DaysToYearsGD` after the century split:
`(uint32_t)n - (uint32_t)q * 146097u`. -/
def dtySday0 (rdn : Int) : Nat :=
  sub32 (chop32 (u64ofInt (4 * rdn - 1))) ((chop32 (dtyQ64 rdn)) * 146097)

/-- The local `qc` of `ucal_DaysToYearsGD`: `ucal_u32_i32((uint32_t)q)`. -/
def dtyQC (rdn : Int) : Int := ucal_u32_i32 (chop32 (dtyQ64 rdn))

/-- The local `sday` of `ucal_DaysToYearsGD` after `sday |= 3`. -/
def dtySday1 (rdn : Int) : Nat := dtySday0 rdn ||| 3

/-- The local `qy` of `ucal_DaysToYearsGD`: `sday / 1461u`. -/
def dtyQY (rdn : Int) : Nat := dtySday1 rdn / 1461

/-- From `gregorian.c`: `ucal_DaysToYearsGD` (wide-register branch:
direct mask-idiom floor division of the scaled day number by 146097).
Returns `((elapsed years, elapsed day-of-year), leap flag)`; the locals
are the named helper functions above. -/
def ucal_DaysToYearsGD (rdn : Int) : (Int × Nat) × Bool :=
  ((dtyQC rdn * 100 + dtyQY rdn, (dtySday1 rdn - dtyQY rdn * 1461) / 4),
   (decide (dtyQY rdn % 4 = 3)) && (decide (dtyQY rdn ≤ 96 + ((dtyQC rdn % 4).toNat))))

/-- Civil date record (`ucal_CivilDateT` from `common.h`).  The one-bit
leap flag is modelled as `Bool`. -/
structure CivilDate where
  dYear : Int
  dYDay : Int
  dWDay : Int
  fLeap : Bool
  dMonth : Int
  dMDay : Int
deriving DecidableEq

/-- From `gregorian.c`: `ucal_RdnToDateGD`.  The output parameter is
explicit: on failure the passed-in record is returned unchanged (the C
function writes the fields only on the success path). -/
def ucal_RdnToDateGD (into : CivilDate) (rdn : Int) : Bool × CivilDate :=
  if (ucal_DaysToYearsGD rdn).1.1 + 1 < -32768 ∨ (ucal_DaysToYearsGD rdn).1.1 + 1 > 32767 then
    (false, into)
  else
    (true,
      { dWDay := ucal_i32SubMod7 rdn 1 + 1
        fLeap := (ucal_DaysToYearsGD rdn).2
        dYear := (ucal_DaysToYearsGD rdn).1.1 + 1
        dYDay := ((ucal_DaysToYearsGD rdn).1.2 : Int) + 1
        dMonth := ((ucal_DaysToMonth (ucal_DaysToYearsGD rdn).1.2
            (ucal_DaysToYearsGD rdn).2).1 : Int) + 1
        dMDay := ((ucal_DaysToMonth (ucal_DaysToYearsGD rdn).1.2
            (ucal_DaysToYearsGD rdn).2).2 : Int) + 1 })

/-- From `gregorian.c`: `ucal_DateToRdnGD` (shifted-calendar conversion;
the local `em` is `ucal_MonthsToDays m` and `ey = y - 1 + em.q`). -/
def ucal_DateToRdnGD (y m d : Int) : Int :=
  (y - 1 + (ucal_MonthsToDays m).1) * 365
    + ucal_LeapDaysInYearsGD (y - 1 + (ucal_MonthsToDays m).1)
    + (ucal_MonthsToDays m).2 + d - 306

/-- From `gregorian.c`: `ucal_YearStartGD`. -/
def ucal_YearStartGD (y : Int) : Int :=
  (y - 1) * 365 + ucal_LeapDaysInYearsGD (y - 1) + 1

/-- The leap-day cascade equals the floor-division formula
`ey/4 - ey/100 + ey/400`. -/
theorem leapDaysGD_eq (ey : Int) (h1 : -2147483648 ≤ ey) (h2 : ey < 2147483648) :
    ucal_LeapDaysInYearsGD ey = ey / 4 - ey / 100 + ey / 400 := by
  unfold ucal_LeapDaysInYearsGD
  by_cases hn : ey < 0
  · have hb : decide (ey < 0) = true := decide_eq_true hn
    have s1 : u32ofInt ey = (ey + 4294967296).toNat := by unfold u32ofInt; omega
    have s2 : mnot32 (decide (ey < 0)) (u32ofInt ey) = (-ey - 1).toNat := by
      rw [hb, s1]
      show not32 ((ey + 4294967296).toNat) = (-ey - 1).toNat
      rw [not32_eq (by omega)]
      omega
    rw [s2]
    obtain ⟨u, hueq⟩ : ∃ u : Nat, (-ey - 1).toNat = u := ⟨_, rfl⟩
    rw [hueq]
    have hub : u < 2147483648 := by omega
    have s3 : mnot32 (decide (ey < 0)) (u / 4 - u / 4 / 25 + u / 4 / 25 / 4)
        = 4294967295 - (u / 4 - u / 4 / 25 + u / 4 / 25 / 4) := by
      rw [hb]
      show not32 _ = _
      rw [not32_eq (by omega)]
    rw [s3]
    unfold ucal_u32_i32
    split
    · omega
    · omega
  · have hb : decide (ey < 0) = false := decide_eq_false hn
    have s1 : u32ofInt ey = ey.toNat := by unfold u32ofInt; omega
    rw [hb, s1]
    show ucal_u32_i32 (ey.toNat / 4 - ey.toNat / 4 / 25 + ey.toNat / 4 / 25 / 4) = _
    unfold ucal_u32_i32
    split
    · omega
    · omega

theorem dtyQ64_eq (rdn : Int) (h1 : -2147483648 ≤ rdn) (h2 : rdn < 2147483648) :
    dtyQ64 rdn = (((4 * rdn - 1) / 146097) % 18446744073709551616).toNat := by
  have hneg : decide (rdn ≤ 0) = decide ((4 * rdn - 1) < 0) := by
    by_cases h : rdn ≤ 0
    · rw [decide_eq_true h, decide_eq_true (by omega : 4 * rdn - 1 < 0)]
    · rw [decide_eq_false h, decide_eq_false (by omega : ¬(4 * rdn - 1 < 0))]
  unfold dtyQ64
  rw [hneg]
  exact maskDiv64_eq (4 * rdn - 1) 146097 (by norm_num) (by omega) (by omega)

theorem dtyQC_eq (rdn : Int) (h1 : -2147483648 ≤ rdn) (h2 : rdn < 2147483648) :
    dtyQC rdn = (4 * rdn - 1) / 146097 := by
  unfold dtyQC
  rw [dtyQ64_eq rdn h1 h2]
  have hchopq : chop32 ((((4 * rdn - 1) / 146097) % 18446744073709551616).toNat)
      = (((4 * rdn - 1) / 146097) % 4294967296).toNat := by
    unfold chop32
    omega
  rw [hchopq]
  exact u32_i32_wrap _ (by omega) (by omega)

theorem dtySday0_eq (rdn : Int) (h1 : -2147483648 ≤ rdn) (h2 : rdn < 2147483648) :
    dtySday0 rdn = ((4 * rdn - 1) % 146097).toNat := by
  unfold dtySday0
  rw [dtyQ64_eq rdn h1 h2]
  have hchopq : chop32 ((((4 * rdn - 1) / 146097) % 18446744073709551616).toNat)
      = (((4 * rdn - 1) / 146097) % 4294967296).toNat := by
    unfold chop32
    omega
  have hchopn : chop32 (u64ofInt (4 * rdn - 1)) = ((4 * rdn - 1) % 4294967296).toNat := by
    unfold chop32 u64ofInt
    omega
  rw [hchopq, hchopn]
  have hsub : (sub32 (((4 * rdn - 1) % 4294967296).toNat)
      ((((4 * rdn - 1) / 146097) % 4294967296).toNat * 146097) : Int)
      = (4 * rdn - 1) % 146097 :=
    sub32_eq_of_modeq _ _ _ (by omega) (by omega) (by omega) (by omega)
  omega

theorem dtySday1_eq (rdn : Int) (h1 : -2147483648 ≤ rdn) (h2 : rdn < 2147483648) :
    dtySday1 rdn = 4 * (((4 * rdn - 1) % 146097).toNat / 4) + 3 := by
  unfold dtySday1
  rw [dtySday0_eq rdn h1 h2, or_three_eq]

/-- Equivalence of the source's leap test `(qy & 3) == 3 && qy <= 96 + (qc & 3)`
with the leap-year predicate of the calendar year `100 qc + qy + 1`. -/
theorem leap_flag_iff (QC : Int) (qy : Nat) (h99 : qy ≤ 99) :
    (qy % 4 = 3 ∧ qy ≤ 96 + (QC % 4).toNat) ↔
      ((QC * 100 + (qy : Int) + 1) % 4 = 0 ∧
        ((QC * 100 + (qy : Int) + 1) % 16 = 0 ∨ ¬((QC * 100 + (qy : Int) + 1) % 25 = 0))) := by
  obtain ⟨t, u, hQ, hu1, hu2⟩ : ∃ t u : Int, QC = 4 * t + u ∧ 0 ≤ u ∧ u < 4 :=
    ⟨QC / 4, QC % 4, by omega, by omega, by omega⟩
  subst hQ
  interval_cases u <;> omega

/-- The elapsed-day identity behind the Gregorian year split: if
`4 r - 1 = 146097 QC + S` with `0 ≤ S < 146097`, then with
`qy = (4⌊S/4⌋+3)/1461` and `doe = ((4⌊S/4⌋+3) mod 1461)/4`, the year
`Y = 100 QC + qy` satisfies `365 Y + ⌊Y/4⌋ - ⌊Y/100⌋ + ⌊Y/400⌋ + 1 + doe = r`. -/
theorem split_equation (r QC : Int) (S : Nat)
    (hdec : 4 * r - 1 = 146097 * QC + S) (hS : S < 146097) :
    365 * (QC * 100 + (((4 * (S / 4) + 3) / 1461 : Nat) : Int))
      + ((QC * 100 + (((4 * (S / 4) + 3) / 1461 : Nat) : Int)) / 4
         - (QC * 100 + (((4 * (S / 4) + 3) / 1461 : Nat) : Int)) / 100
         + (QC * 100 + (((4 * (S / 4) + 3) / 1461 : Nat) : Int)) / 400)
      + 1 + ((((4 * (S / 4) + 3) - ((4 * (S / 4) + 3) / 1461) * 1461) / 4 : Nat) : Int) = r := by
  obtain ⟨qy, hqy, hqyb⟩ : ∃ q : Nat, (4 * (S / 4) + 3) / 1461 = q ∧ q ≤ 99 :=
    ⟨_, rfl, by omega⟩
  rw [hqy]
  have hY4 : (QC * 100 + (qy : Int)) / 4 = QC * 25 + (qy : Int) / 4 := by omega
  have hY100 : (QC * 100 + (qy : Int)) / 100 = QC := by omega
  have hY400 : (QC * 100 + (qy : Int)) / 400 = QC / 4 := by omega
  rw [hY4, hY100, hY400]
  omega

set_option maxHeartbeats 1600000 in
/-- Main correctness of the year split: `ucal_DaysToYearsGD` decomposes an
RDN into elapsed years `Y` and an elapsed day-of-year `doe`, where the
elapsed years start at `365 Y + ⌊Y/4⌋ - ⌊Y/100⌋ + ⌊Y/400⌋ + 1`, the
day-of-year is bounded by the length of calendar year `Y + 1`, and the
leap flag is the Gregorian leap-year predicate of calendar year
`Y + 1`. -/
theorem daysToYearsGD_spec (rdn : Int) (h1 : -2147483648 ≤ rdn) (h2 : rdn < 2147483648) :
    ∃ Y : Int, ∃ doe : Nat,
      ucal_DaysToYearsGD rdn = ((Y, doe), ucal_IsLeapYearGD (Y + 1)) ∧
      365 * Y + (Y / 4 - Y / 100 + Y / 400) + 1 + (doe : Nat) = rdn ∧
      (ucal_IsLeapYearGD (Y + 1) = true → doe ≤ 365) ∧
      (ucal_IsLeapYearGD (Y + 1) = false → doe ≤ 364) := by
  have hval : ucal_DaysToYearsGD rdn =
      (((4 * rdn - 1) / 146097 * 100
          + (((4 * (((4 * rdn - 1) % 146097).toNat / 4) + 3) / 1461 : Nat) : Int),
        ((4 * (((4 * rdn - 1) % 146097).toNat / 4) + 3)
          - ((4 * (((4 * rdn - 1) % 146097).toNat / 4) + 3) / 1461) * 1461) / 4),
       (decide (((4 * (((4 * rdn - 1) % 146097).toNat / 4) + 3) / 1461) % 4 = 3)
        && decide (((4 * (((4 * rdn - 1) % 146097).toNat / 4) + 3) / 1461)
             ≤ 96 + ((((4 * rdn - 1) / 146097) % 4).toNat)))) := by
    unfold ucal_DaysToYearsGD dtyQY
    rw [dtySday1_eq rdn h1 h2, dtyQC_eq rdn h1 h2]
  obtain ⟨QC, hQC⟩ : ∃ q : Int, (4 * rdn - 1) / 146097 = q := ⟨_, rfl⟩
  obtain ⟨S, hS⟩ : ∃ s : Nat, ((4 * rdn - 1) % 146097).toNat = s := ⟨_, rfl⟩
  rw [hQC, hS] at hval
  have hdecomp : 4 * rdn - 1 = 146097 * QC + S := by omega
  have hSlt : S < 146097 := by omega
  clear hQC hS
  have hqy99 : (4 * (S / 4) + 3) / 1461 ≤ 99 := by omega
  refine ⟨QC * 100 + (((4 * (S / 4) + 3) / 1461 : Nat) : Int),
    ((4 * (S / 4) + 3) - ((4 * (S / 4) + 3) / 1461) * 1461) / 4, ?_, ?_, ?_, ?_⟩
  · rw [hval]
    have hfl : (decide (((4 * (S / 4) + 3) / 1461) % 4 = 3)
        && decide (((4 * (S / 4) + 3) / 1461) ≤ 96 + ((QC % 4).toNat)))
        = ucal_IsLeapYearGD (QC * 100 + (((4 * (S / 4) + 3) / 1461 : Nat) : Int) + 1) := by
      apply bool_eq_of_iff
      simp only [ucal_IsLeapYearGD, Bool.and_eq_true, Bool.or_eq_true, decide_eq_true_eq,
        Bool.not_eq_true', decide_eq_false_iff_not]
      exact leap_flag_iff QC ((4 * (S / 4) + 3) / 1461) hqy99
    rw [hfl]
  · exact split_equation rdn QC S hdecomp hSlt
  · intro hflag
    simp only [ucal_IsLeapYearGD, Bool.and_eq_true, Bool.or_eq_true, decide_eq_true_eq,
      Bool.not_eq_true', decide_eq_false_iff_not] at hflag
    omega
  · intro hflag
    have hnotq : ¬(((4 * (S / 4) + 3) / 1461) % 4 = 3
        ∧ ((4 * (S / 4) + 3) / 1461) ≤ 96 + (QC % 4).toNat) := by
      intro hcon
      have hiff := (leap_flag_iff QC ((4 * (S / 4) + 3) / 1461) hqy99).mp hcon
      have h2 : ucal_IsLeapYearGD
          (QC * 100 + (((4 * (S / 4) + 3) / 1461 : Nat) : Int) + 1) = true := by
        simp only [ucal_IsLeapYearGD, Bool.and_eq_true, Bool.or_eq_true, decide_eq_true_eq,
          Bool.not_eq_true', decide_eq_false_iff_not]
        exact hiff
      rw [hflag] at h2
      exact absurd h2 (by simp)
    by_contra hc
    obtain ⟨S4, hS4a, hS4b⟩ : ∃ t, 4 * t ≤ S ∧ S < 4 * t + 4 := ⟨S / 4, by omega, by omega⟩
    have hS4 : S / 4 = S4 := by omega
    rw [hS4] at hnotq hc
    obtain ⟨qy, hqya, hqyb⟩ : ∃ q, 1461 * q ≤ 4 * S4 + 3 ∧ 4 * S4 + 3 < 1461 * q + 1461 :=
      ⟨(4 * S4 + 3) / 1461, by omega, by omega⟩
    have hqyE : (4 * S4 + 3) / 1461 = qy := by omega
    rw [hqyE] at hnotq hc
    obtain ⟨doe, hdoea, hdoeb⟩ : ∃ e, 4 * e ≤ (4 * S4 + 3) - qy * 1461
        ∧ (4 * S4 + 3) - qy * 1461 < 4 * e + 4 :=
      ⟨((4 * S4 + 3) - qy * 1461) / 4, by omega, by omega⟩
    have hdoeE : ((4 * S4 + 3) - qy * 1461) / 4 = doe := by omega
    rw [hdoeE] at hc
    have h365 : 4 * S4 + 3 - qy * 1461 = 1460 := by omega
    have hq3 : qy % 4 = 3 := by omega
    have hqle : qy ≤ 99 := by omega
    have hu : qy = 99 ∧ (QC % 4).toNat ≤ 2 := by omega
    have hS14 : S = 146096 := by omega
    omega


/-- The leap bit as a natural number. -/
def leapBit : Bool → Nat
  | true => 1
  | false => 0

/-- Day-of-year, 0-based, of day `d` of month `m` (both 1-based) computed
from the month-length table `_ucal_mdtab`. -/
def doy0 (leap : Bool) (m d : Nat) : Nat :=
  ((ucal_mdtab leap).take (m - 1)).sum + (d - 1)

/-- A civil date is valid for the proleptic Gregorian calendar when the
year fits `int16_t`, the month is 1..12 and the day is 1..(length of that
month in that year, per `_ucal_mdtab`). -/
def validDateGD (y m d : Int) : Prop :=
  -32768 ≤ y ∧ y ≤ 32767 ∧ 1 ≤ m ∧ m ≤ 12 ∧ 1 ≤ d ∧
    d ≤ ((ucal_mdtab (ucal_IsLeapYearGD y)).getD (m - 1).toNat 0 : Int)

instance validDateGD_dec (y m d : Int) : Decidable (validDateGD y m d) :=
  inferInstanceAs (Decidable (-32768 ≤ y ∧ y ≤ 32767 ∧ 1 ≤ m ∧ m ≤ 12 ∧ 1 ≤ d ∧
    d ≤ ((ucal_mdtab (ucal_IsLeapYearGD y)).getD (m - 1).toNat 0 : Int)))

set_option maxRecDepth 40000 in
/-- Finite check (all 732 cases): for every elapsed day-of-year `ed` of a
year, `ucal_DaysToMonth` produces a month index `≤ 11` and a day-of-month
within the month length, and the pair regenerates `ed` through `doy0`. -/
theorem daysToMonth_fwd : ∀ leap : Bool, ∀ ed : Nat, ed < 366 →
    ed ≤ 364 + leapBit leap →
    (ucal_DaysToMonth ed leap).1 ≤ 11 ∧
    (ucal_DaysToMonth ed leap).2 + 1
      ≤ (ucal_mdtab leap).getD (ucal_DaysToMonth ed leap).1 0 ∧
    doy0 leap ((ucal_DaysToMonth ed leap).1 + 1) ((ucal_DaysToMonth ed leap).2 + 1) = ed := by
  decide

set_option maxRecDepth 40000 in
set_option synthInstance.maxHeartbeats 2000000 in
set_option synthInstance.maxSize 2048 in
set_option maxHeartbeats 2000000 in
/-- Finite check (all valid dates): `ucal_DaysToMonth` inverts the
day-of-year computation `doy0`, and `doy0` is linked to the month through
`ucal_MonthsToDays`: either to the previous shifted year (Jan/Feb,
quotient 0) or to the current one (Mar..Dec, quotient 1). -/
theorem daysToMonth_rev : ∀ leap : Bool, ∀ m : Nat, m < 13 → ∀ d : Nat, d < 32 →
    (1 ≤ m ∧ 1 ≤ d ∧ d ≤ (ucal_mdtab leap).getD (m - 1) 0) →
    doy0 leap m d ≤ 364 + leapBit leap ∧
    ucal_DaysToMonth (doy0 leap m d) leap = (m - 1, d - 1) ∧
    ((ucal_MonthsToDays (m : Int)).1 = 0 ∧
      (ucal_MonthsToDays (m : Int)).2 + (d - 1) = doy0 leap m d + 306 ∨
    (ucal_MonthsToDays (m : Int)).1 = 1 ∧
      (ucal_MonthsToDays (m : Int)).2 + (d - 1) + 59 + leapBit leap = doy0 leap m d) := by
  decide

/-- All month lengths are at most 31. -/
theorem mdtab_le : ∀ leap : Bool, ∀ i : Nat, i < 12 →
    (ucal_mdtab leap).getD i 0 ≤ 31 := by
  decide

/-- Propositional form of the Gregorian leap-year predicate. -/
theorem isLeapGD_iff (y : Int) :
    ucal_IsLeapYearGD y = true ↔ (y % 4 = 0 ∧ (y % 16 = 0 ∨ ¬ y % 25 = 0)) := by
  unfold ucal_IsLeapYearGD
  simp

/-- Stepping the elapsed-day count of year starts across a leap year adds
366 days. -/
theorem dstart_step_true (Y : Int) (hB : ucal_IsLeapYearGD (Y + 1) = true) :
    365 * (Y + 1) + ((Y + 1) / 4 - (Y + 1) / 100 + (Y + 1) / 400)
      = 365 * Y + (Y / 4 - Y / 100 + Y / 400) + 366 := by
  obtain ⟨h4, hlf⟩ := (isLeapGD_iff (Y + 1)).mp hB
  have s4 : (Y + 1) / 4 = Y / 4 + 1 := by omega
  by_cases h100 : (Y + 1) % 100 = 0
  · have h25 : (Y + 1) % 25 = 0 := by omega
    have h16 : (Y + 1) % 16 = 0 := by
      rcases hlf with h | h
      · exact h
      · exact absurd h25 h
    obtain ⟨b, hb⟩ : ∃ b, Y + 1 = 16 * b := ⟨(Y + 1) / 16, by omega⟩
    obtain ⟨a, ha⟩ : ∃ a, Y + 1 = 100 * a := ⟨(Y + 1) / 100, by omega⟩
    have h400 : Y + 1 = 400 * (b - 6 * a) := by omega
    have s100 : (Y + 1) / 100 = Y / 100 + 1 := by omega
    have s400 : (Y + 1) / 400 = Y / 400 + 1 := by omega
    rw [s4, s100, s400]
    ring
  · have h400 : ¬(Y + 1) % 400 = 0 := by omega
    have s100 : (Y + 1) / 100 = Y / 100 := by omega
    have s400 : (Y + 1) / 400 = Y / 400 := by omega
    rw [s4, s100, s400]
    ring

/-- Stepping the elapsed-day count of year starts across a common year
adds 365 days. -/
theorem dstart_step_false (Y : Int) (hB : ucal_IsLeapYearGD (Y + 1) = false) :
    365 * (Y + 1) + ((Y + 1) / 4 - (Y + 1) / 100 + (Y + 1) / 400)
      = 365 * Y + (Y / 4 - Y / 100 + Y / 400) + 365 := by
  have hnot : ¬(ucal_IsLeapYearGD (Y + 1) = true) := by
    rw [hB]
    exact Bool.false_ne_true
  have hprop : ¬((Y + 1) % 4 = 0 ∧ ((Y + 1) % 16 = 0 ∨ ¬(Y + 1) % 25 = 0)) :=
    fun hp => hnot ((isLeapGD_iff (Y + 1)).mpr hp)
  by_cases h4 : (Y + 1) % 4 = 0
  · have h16 : ¬(Y + 1) % 16 = 0 := fun h => hprop ⟨h4, Or.inl h⟩
    have h25 : (Y + 1) % 25 = 0 := by
      by_contra hc
      exact hprop ⟨h4, Or.inr hc⟩
    obtain ⟨b, hb⟩ : ∃ b, Y + 1 = 4 * b := ⟨(Y + 1) / 4, by omega⟩
    obtain ⟨a, ha⟩ : ∃ a, Y + 1 = 25 * a := ⟨(Y + 1) / 25, by omega⟩
    have h100 : Y + 1 = 100 * (b - 6 * a) := by omega
    have h400 : ¬(Y + 1) % 400 = 0 := by
      intro hc
      apply h16
      omega
    have s4 : (Y + 1) / 4 = Y / 4 + 1 := by omega
    have s100 : (Y + 1) / 100 = Y / 100 + 1 := by omega
    have s400 : (Y + 1) / 400 = Y / 400 := by omega
    rw [s4, s100, s400]
    ring
  · have s4 : (Y + 1) / 4 = Y / 4 := by omega
    have h100 : ¬(Y + 1) % 100 = 0 := by omega
    have h400 : ¬(Y + 1) % 400 = 0 := by omega
    have s100 : (Y + 1) / 100 = Y / 100 := by omega
    have s400 : (Y + 1) / 400 = Y / 400 := by omega
    rw [s4, s100, s400]
    ring

/-- Uniqueness of the year/day-of-year split: two splits with day counts
bounded by the respective year lengths and equal elapsed-day totals
coincide. -/
theorem split_unique (Y1 Y2 : Int) (d1 d2 : Nat)
    (h1t : ucal_IsLeapYearGD (Y1 + 1) = true → d1 ≤ 365)
    (h1f : ucal_IsLeapYearGD (Y1 + 1) = false → d1 ≤ 364)
    (h2t : ucal_IsLeapYearGD (Y2 + 1) = true → d2 ≤ 365)
    (h2f : ucal_IsLeapYearGD (Y2 + 1) = false → d2 ≤ 364)
    (heq : 365 * Y1 + (Y1 / 4 - Y1 / 100 + Y1 / 400) + (d1 : Int)
        = 365 * Y2 + (Y2 / 4 - Y2 / 100 + Y2 / 400) + (d2 : Int)) :
    Y1 = Y2 ∧ d1 = d2 := by
  rcases lt_trichotomy Y1 Y2 with hlt | heqY | hgt
  · exfalso
    have m4 : (Y1 + 1) / 4 + (Y2 - Y1 - 1) / 4 ≤ Y2 / 4 := by omega
    have m100 : Y2 / 100 ≤ (Y1 + 1) / 100 + (Y2 - Y1 - 1) / 100 + 1 := by omega
    have m400 : (Y1 + 1) / 400 + (Y2 - Y1 - 1) / 400 ≤ Y2 / 400 := by omega
    have mq4 : 0 ≤ (Y2 - Y1 - 1) / 4 := by omega
    have mq100 : (Y2 - Y1 - 1) / 100 ≤ Y2 - Y1 - 1 := by omega
    have mq400 : 0 ≤ (Y2 - Y1 - 1) / 400 := by omega
    have hmono : 365 * (Y1 + 1) + ((Y1 + 1) / 4 - (Y1 + 1) / 100 + (Y1 + 1) / 400)
        ≤ 365 * Y2 + (Y2 / 4 - Y2 / 100 + Y2 / 400) := by omega
    cases hB : ucal_IsLeapYearGD (Y1 + 1)
    · have hs := dstart_step_false Y1 hB
      have hd := h1f hB
      omega
    · have hs := dstart_step_true Y1 hB
      have hd := h1t hB
      omega
  · refine ⟨heqY, ?_⟩
    subst heqY
    omega
  · exfalso
    have m4 : (Y2 + 1) / 4 + (Y1 - Y2 - 1) / 4 ≤ Y1 / 4 := by omega
    have m100 : Y1 / 100 ≤ (Y2 + 1) / 100 + (Y1 - Y2 - 1) / 100 + 1 := by omega
    have m400 : (Y2 + 1) / 400 + (Y1 - Y2 - 1) / 400 ≤ Y1 / 400 := by omega
    have mq4 : 0 ≤ (Y1 - Y2 - 1) / 4 := by omega
    have mq100 : (Y1 - Y2 - 1) / 100 ≤ Y1 - Y2 - 1 := by omega
    have mq400 : 0 ≤ (Y1 - Y2 - 1) / 400 := by omega
    have hmono : 365 * (Y2 + 1) + ((Y2 + 1) / 4 - (Y2 + 1) / 100 + (Y2 + 1) / 400)
        ≤ 365 * Y1 + (Y1 / 4 - Y1 / 100 + Y1 / 400) := by omega
    cases hB : ucal_IsLeapYearGD (Y2 + 1)
    · have hs := dstart_step_false Y2 hB
      have hd := h2f hB
      omega
    · have hs := dstart_step_true Y2 hB
      have hd := h2t hB
      omega

/-- Full evaluation of `ucal_RdnToDateGD` on moderate inputs: the call
succeeds and the fields are determined by the year/day-of-year split. -/
theorem rdnToDateGD_spec (cd0 : CivilDate) (r : Int)
    (hr1 : -5000000 ≤ r) (hr2 : r ≤ 5000000) :
    ∃ Y : Int, ∃ doe : Nat,
      365 * Y + (Y / 4 - Y / 100 + Y / 400) + 1 + (doe : Int) = r ∧
      (ucal_IsLeapYearGD (Y + 1) = true → doe ≤ 365) ∧
      (ucal_IsLeapYearGD (Y + 1) = false → doe ≤ 364) ∧
      -13700 ≤ Y ∧ Y ≤ 13700 ∧
      ucal_RdnToDateGD cd0 r = (true,
        { dYear := Y + 1
          dYDay := (doe : Int) + 1
          dWDay := ucal_i32SubMod7 r 1 + 1
          fLeap := ucal_IsLeapYearGD (Y + 1)
          dMonth := ((ucal_DaysToMonth doe (ucal_IsLeapYearGD (Y + 1))).1 : Int) + 1
          dMDay := ((ucal_DaysToMonth doe (ucal_IsLeapYearGD (Y + 1))).2 : Int) + 1 }) := by
  obtain ⟨Y, doe, hsplit, heq, hbt, hbf⟩ := daysToYearsGD_spec r (by omega) (by omega)
  have hdoeB : doe ≤ 365 := by
    cases hB : ucal_IsLeapYearGD (Y + 1)
    · exact Nat.le_trans (hbf hB) (by omega)
    · exact hbt hB
  have hYlo : -13700 ≤ Y := by omega
  have hYhi : Y ≤ 13700 := by omega
  refine ⟨Y, doe, by omega, hbt, hbf, hYlo, hYhi, ?_⟩
  unfold ucal_RdnToDateGD
  rw [hsplit]
  dsimp only
  rw [if_neg (by omega)]

set_option maxHeartbeats 1600000 in
/-- Evaluation of `ucal_DateToRdnGD` on a valid date: the result is the
elapsed-day count of the year start plus the 0-based day of year `doy0`,
and `ucal_DaysToMonth` recovers the month and day from that day of
year. -/
theorem dateToRdnGD_split (y m d : Int) (hv : validDateGD y m d) :
    ucal_DateToRdnGD y m d
      = 365 * (y - 1) + ((y - 1) / 4 - (y - 1) / 100 + (y - 1) / 400) + 1
        + ((doy0 (ucal_IsLeapYearGD y) m.toNat d.toNat : Nat) : Int) ∧
    (ucal_IsLeapYearGD y = true → doy0 (ucal_IsLeapYearGD y) m.toNat d.toNat ≤ 365) ∧
    (ucal_IsLeapYearGD y = false → doy0 (ucal_IsLeapYearGD y) m.toNat d.toNat ≤ 364) ∧
    ucal_DaysToMonth (doy0 (ucal_IsLeapYearGD y) m.toNat d.toNat) (ucal_IsLeapYearGD y)
      = ((m - 1).toNat, (d - 1).toNat) := by
  obtain ⟨hy1, hy2, hm1, hm2, hd1, hd2⟩ := hv
  have hmN : ((m.toNat : Int)) = m := by omega
  have hidx : (m - 1).toNat = m.toNat - 1 := by omega
  rw [hidx] at hd2
  have hlen := mdtab_le (ucal_IsLeapYearGD y) (m.toNat - 1) (by omega)
  have hG := daysToMonth_rev (ucal_IsLeapYearGD y) m.toNat (by omega) d.toNat
    (by omega) ⟨by omega, by omega, by omega⟩
  obtain ⟨hbound, hinv, hcases⟩ := hG
  refine ⟨?_, ?_, ?_, ?_⟩
  · unfold ucal_DateToRdnGD
    obtain ⟨E, hE⟩ : ∃ E, (ucal_MonthsToDays m).2 = E := ⟨_, rfl⟩
    obtain ⟨D, hD⟩ : ∃ D, doy0 (ucal_IsLeapYearGD y) m.toNat d.toNat = D := ⟨_, rfl⟩
    rcases hcases with ⟨hq, hrel⟩ | ⟨hq, hrel⟩
    · rw [hmN] at hq hrel
      rw [hE, hD] at hrel
      rw [hq, hE, hD, leapDaysGD_eq (y - 1 + 0) (by omega) (by omega)]
      rw [show y - 1 + 0 = y - 1 by ring]
      have hEd : (E : Int) + d - 1 = (D : Int) + 306 := by omega
      linear_combination hEd
    · rw [hmN] at hq hrel
      rw [hE, hD] at hrel
      rw [hq, hE, hD, leapDaysGD_eq (y - 1 + 1) (by omega) (by omega)]
      cases hB : ucal_IsLeapYearGD y
      · rw [hB] at hrel
        have hbit : leapBit false = 0 := rfl
        rw [hbit] at hrel
        have hEd : (E : Int) + d + 58 = (D : Int) := by omega
        have hs := dstart_step_false (y - 1) (by rw [show y - 1 + 1 = y by ring]; exact hB)
        linear_combination hs + hEd
      · rw [hB] at hrel
        have hbit : leapBit true = 1 := rfl
        rw [hbit] at hrel
        have hEd : (E : Int) + d + 59 = (D : Int) := by omega
        have hs := dstart_step_true (y - 1) (by rw [show y - 1 + 1 = y by ring]; exact hB)
        linear_combination hs + hEd
  · intro hB
    rw [hB] at hbound ⊢
    have hbit : leapBit true = 1 := rfl
    rw [hbit] at hbound
    omega
  · intro hB
    rw [hB] at hbound ⊢
    have hbit : leapBit false = 0 := rfl
    rw [hbit] at hbound
    omega
  · rw [hinv, hidx]
    have hdd : (d - 1).toNat = d.toNat - 1 := by omega
    rw [hdd]

set_option maxHeartbeats 1600000 in
/-- C1: round-trip between RDN and Gregorian civil date.  For any RDN `r`
in `[-5000000, 5000000]`, `ucal_RdnToDateGD` succeeds and
`ucal_DateToRdnGD` on the produced (year, month, mday) returns `r`;
conversely, for any valid date whose RDN lies in that range, splitting the
RDN reproduces the date. -/
theorem c1_gregorian_roundtrip (cd0 : CivilDate) (r y m d : Int)
    (hr1 : -5000000 ≤ r) (hr2 : r ≤ 5000000)
    (hv : validDateGD y m d)
    (hvr1 : -5000000 ≤ ucal_DateToRdnGD y m d)
    (hvr2 : ucal_DateToRdnGD y m d ≤ 5000000) :
    ((ucal_RdnToDateGD cd0 r).1 = true ∧
      ucal_DateToRdnGD (ucal_RdnToDateGD cd0 r).2.dYear
        (ucal_RdnToDateGD cd0 r).2.dMonth (ucal_RdnToDateGD cd0 r).2.dMDay = r) ∧
    ((ucal_RdnToDateGD cd0 (ucal_DateToRdnGD y m d)).1 = true ∧
      (ucal_RdnToDateGD cd0 (ucal_DateToRdnGD y m d)).2.dYear = y ∧
      (ucal_RdnToDateGD cd0 (ucal_DateToRdnGD y m d)).2.dMonth = m ∧
      (ucal_RdnToDateGD cd0 (ucal_DateToRdnGD y m d)).2.dMDay = d) := by
  constructor
  · -- forward direction
    obtain ⟨Y, doe, heq, hbt, hbf, hYlo, hYhi, hRD⟩ := rdnToDateGD_spec cd0 r hr1 hr2
    rw [hRD]
    refine ⟨rfl, ?_⟩
    have hdoeB : doe ≤ 365 := by
      cases hB : ucal_IsLeapYearGD (Y + 1)
      · exact Nat.le_trans (hbf hB) (by omega)
      · exact hbt hB
    have hdbit : doe ≤ 364 + leapBit (ucal_IsLeapYearGD (Y + 1)) := by
      cases hB : ucal_IsLeapYearGD (Y + 1)
      · have := hbf hB
        omega
      · have := hbt hB
        have hbit : leapBit true = 1 := rfl
        omega
    have hF := daysToMonth_fwd (ucal_IsLeapYearGD (Y + 1)) doe (by omega) hdbit
    obtain ⟨hm11, hdlen, hregen⟩ := hF
    -- the produced date is valid
    have hvout : validDateGD (Y + 1)
        (((ucal_DaysToMonth doe (ucal_IsLeapYearGD (Y + 1))).1 : Int) + 1)
        (((ucal_DaysToMonth doe (ucal_IsLeapYearGD (Y + 1))).2 : Int) + 1) := by
      refine ⟨by omega, by omega, by omega, by exact_mod_cast by omega, by omega, ?_⟩
      have hidx : ((((ucal_DaysToMonth doe (ucal_IsLeapYearGD (Y + 1))).1 : Int) + 1 - 1).toNat)
          = (ucal_DaysToMonth doe (ucal_IsLeapYearGD (Y + 1))).1 := by omega
      rw [hidx]
      exact_mod_cast hdlen
    obtain ⟨hDR, _, _, _⟩ := dateToRdnGD_split _ _ _ hvout
    have hmcast : ((((ucal_DaysToMonth doe (ucal_IsLeapYearGD (Y + 1))).1 : Int) + 1).toNat)
        = (ucal_DaysToMonth doe (ucal_IsLeapYearGD (Y + 1))).1 + 1 := by omega
    have hdcast : ((((ucal_DaysToMonth doe (ucal_IsLeapYearGD (Y + 1))).2 : Int) + 1).toNat)
        = (ucal_DaysToMonth doe (ucal_IsLeapYearGD (Y + 1))).2 + 1 := by omega
    rw [hmcast, hdcast, hregen] at hDR
    have hnorm : Y + 1 - 1 = Y := by ring
    rw [hnorm] at hDR
    show ucal_DateToRdnGD (Y + 1) _ _ = r
    rw [hDR]
    omega
  · -- reverse direction
    obtain ⟨Y, doe, heq, hbt, hbf, hYlo, hYhi, hRD⟩ :=
      rdnToDateGD_spec cd0 (ucal_DateToRdnGD y m d) hvr1 hvr2
    obtain ⟨hDR, hdt, hdf, hDM⟩ := dateToRdnGD_split y m d hv
    obtain ⟨hy1, hy2, hm1, hm2, hd1, hd2⟩ := hv
    have hye : y - 1 + 1 = y := by ring
    have huniq := split_unique Y (y - 1) doe (doy0 (ucal_IsLeapYearGD y) m.toNat d.toNat)
      hbt hbf (by rw [hye]; exact hdt) (by rw [hye]; exact hdf) (by omega)
    obtain ⟨hYy, hdoe⟩ := huniq
    rw [hRD]
    have hflag2 : ucal_IsLeapYearGD (Y + 1) = ucal_IsLeapYearGD y := by
      rw [hYy, hye]
    refine ⟨rfl, by show Y + 1 = y; omega, ?_, ?_⟩
    · show ((ucal_DaysToMonth doe (ucal_IsLeapYearGD (Y + 1))).1 : Int) + 1 = m
      rw [hflag2, hdoe, hDM]
      show (((m - 1).toNat : Int)) + 1 = m
      omega
    · show ((ucal_DaysToMonth doe (ucal_IsLeapYearGD (Y + 1))).2 : Int) + 1 = d
      rw [hflag2, hdoe, hDM]
      show (((d - 1).toNat : Int)) + 1 = d
      omega

/-- Witness for the round-trip theorem at RDN 730486 = 2001-01-01. -/
theorem c1_gregorian_roundtrip_witness :
    (ucal_RdnToDateGD ⟨0, 0, 0, false, 0, 0⟩ 730486).1 = true ∧
    ucal_DateToRdnGD (ucal_RdnToDateGD ⟨0, 0, 0, false, 0, 0⟩ 730486).2.dYear
      (ucal_RdnToDateGD ⟨0, 0, 0, false, 0, 0⟩ 730486).2.dMonth
      (ucal_RdnToDateGD ⟨0, 0, 0, false, 0, 0⟩ 730486).2.dMDay = 730486 ∧
    (ucal_RdnToDateGD ⟨0, 0, 0, false, 0, 0⟩ (ucal_DateToRdnGD 2001 1 1)).2.dYear = 2001 := by
  have h := c1_gregorian_roundtrip ⟨0, 0, 0, false, 0, 0⟩ 730486 2001 1 1
    (by decide) (by decide) (by decide) (by decide) (by decide)
  exact ⟨h.1.1, h.1.2, h.2.2.1⟩


/-- `uint32_t` addition without wrap-around, when the sum fits. -/
theorem add32_eq_of_lt {a b : Nat} (h : a + b < 4294967296) : add32 a b = a + b := by
  unfold add32
  exact Nat.mod_eq_of_lt h

set_option maxHeartbeats 1600000 in
/-- C2: the Granlund-Möller core division step `ucal_u32DivGM` is exact.
For a normalised divisor `d` (`2^31 ≤ d < 2^32`), the precomputed
reciprocal `v = (2^64-1)/d - 2^32` and a high word `u1 < d`, the returned
pair is the true quotient and remainder of `u1·2^32 + u0` by `d`. -/
theorem c2_u32DivGM (u1 u0 d v : Nat)
    (hu1 : u1 < d) (hu0 : u0 < 4294967296)
    (hd1 : 2147483648 ≤ d) (hd2 : d < 4294967296)
    (hv : v = 18446744073709551615 / d - 4294967296) :
    (ucal_u32DivGM u1 u0 d v).1 = (u1 * 4294967296 + u0) / d ∧
    (ucal_u32DivGM u1 u0 d v).2 = (u1 * 4294967296 + u0) % d := by
  have hd0 : 0 < d := by omega
  -- the reciprocal satisfies d*(v + 2^32) + e = 2^64 - 1 with e < d
  have hMd : (4294967297 : Nat) ≤ 18446744073709551615 / d := by
    calc (4294967297 : Nat) = 18446744073709551615 / 4294967295 := by norm_num
    _ ≤ 18446744073709551615 / d := Nat.div_le_div_left (by omega) hd0
  have hvβ : v + 4294967296 = 18446744073709551615 / d := by omega
  have hvU : v ≤ 4294967295 := by
    have h2 : 18446744073709551615 / d ≤ 18446744073709551615 / 2147483648 :=
      Nat.div_le_div_left hd1 (by norm_num)
    have h3 : (18446744073709551615 : Nat) / 2147483648 = 8589934591 := by norm_num
    omega
  obtain ⟨Q, hQ⟩ : ∃ Q, (u1 * 4294967296 + u0) / d = Q := ⟨_, rfl⟩
  obtain ⟨R, hR⟩ : ∃ R, (u1 * 4294967296 + u0) % d = R := ⟨_, rfl⟩
  obtain ⟨e, he⟩ : ∃ e, 18446744073709551615 % d = e := ⟨_, rfl⟩
  obtain ⟨A, hA⟩ : ∃ A, u1 * v + u0 = A := ⟨_, rfl⟩
  obtain ⟨a, ha⟩ : ∃ a, A / 4294967296 = a := ⟨_, rfl⟩
  obtain ⟨p, hp⟩ : ∃ p, A % 4294967296 = p := ⟨_, rfl⟩
  have hQR : u1 * 4294967296 + u0 = d * Q + R := by
    rw [← hQ, ← hR]
    exact (Nat.div_add_mod _ d).symm
  have hRd : R < d := by
    rw [← hR]
    exact Nat.mod_lt _ hd0
  have hed : e < d := by
    rw [← he]
    exact Nat.mod_lt _ hd0
  have hdv : d * (v + 4294967296) + e = 18446744073709551615 := by
    rw [hvβ, ← he]
    exact Nat.div_add_mod _ d
  have hAap : A = 4294967296 * a + p := by
    rw [← ha, ← hp]
    exact (Nat.div_add_mod A _).symm
  have hpβ : p < 4294967296 := by
    rw [← hp]
    exact Nat.mod_lt _ (by norm_num)
  have hAlt : A < 18446744073709551616 := by
    have hm : u1 * v ≤ 4294967295 * 4294967295 := Nat.mul_le_mul (by omega) hvU
    omega
  -- integer versions and the master identity
  have h1 : (u1 : Int) * 4294967296 + u0 = d * Q + R := by exact_mod_cast hQR
  have h2 : (d : Int) * (v + 4294967296) + e = 18446744073709551615 := by exact_mod_cast hdv
  have h3 : (A : Int) = 4294967296 * a + p := by exact_mod_cast hAap
  have h4 : (A : Int) = u1 * v + u0 := by exact_mod_cast hA.symm
  have key : ((Q : Int) - (a + u1 + 1)) * ((d : Int) * 4294967296)
      = u1 * (e + 1) + u0 * (4294967296 - d) + d * p - d * 4294967296 - 4294967296 * R := by
    linear_combination (-(4294967296 : Int)) * h1 - (u1 : Int) * h2
      + (d : Int) * h3 - (d : Int) * h4
  have hu1I : (u1 : Int) < d := by exact_mod_cast hu1
  have hu0I : (u0 : Int) < 4294967296 := by exact_mod_cast hu0
  have hdI1 : (2147483648 : Int) ≤ d := by exact_mod_cast hd1
  have hdI2 : (d : Int) < 4294967296 := by exact_mod_cast hd2
  have heI : (e : Int) < d := by exact_mod_cast hed
  have hRI : (R : Int) < d := by exact_mod_cast hRd
  have hpI : (p : Int) < 4294967296 := by exact_mod_cast hpβ
  have hu1n : (0 : Int) ≤ u1 := Int.natCast_nonneg u1
  have hu0n : (0 : Int) ≤ u0 := Int.natCast_nonneg u0
  have hen : (0 : Int) ≤ e := Int.natCast_nonneg e
  have hRn : (0 : Int) ≤ R := Int.natCast_nonneg R
  have hpn : (0 : Int) ≤ p := Int.natCast_nonneg p
  have han : (0 : Int) ≤ a := Int.natCast_nonneg a
  have hQn : (0 : Int) ≤ Q := Int.natCast_nonneg Q
  clear hv hMd hvβ hvU hdv hQR hAap h2 h3 h4 he hed hu1 hd1 hd2
  -- product bounds used in the error analysis
  have hB1 : (u1 : Int) * (e + 1) ≤ (d - 1) * d :=
    mul_le_mul (by omega) (by omega) (by omega) (by omega)
  have hB1n : (0 : Int) ≤ (u1 : Int) * (e + 1) := mul_nonneg (by omega) (by omega)
  have hB2 : (u0 : Int) * (4294967296 - d) ≤ 4294967295 * (4294967296 - d) :=
    mul_le_mul_of_nonneg_right (by omega) (by omega)
  have hB2n : (0 : Int) ≤ (u0 : Int) * (4294967296 - d) := mul_nonneg (by omega) (by omega)
  have hdpU : (d : Int) * p ≤ (d : Int) * 4294967295 :=
    mul_le_mul_of_nonneg_left (by omega) (by omega)
  have hdpn : (0 : Int) ≤ (d : Int) * p := mul_nonneg (by omega) (by omega)
  have hβRU : (4294967296 : Int) * R ≤ 4294967296 * ((d : Int) - 1) :=
    mul_le_mul_of_nonneg_left (by omega) (by norm_num)
  have hβRn : (0 : Int) ≤ (4294967296 : Int) * R := mul_nonneg (by norm_num) (by omega)
  have hcd : ((4294967296 : Int) - d) * (4294967296 - d) ≤ (d : Int) * (4294967296 - d) :=
    mul_le_mul_of_nonneg_right (by omega) (by omega)
  have hsq0 : (0 : Int) ≤ ((4294967296 : Int) - d) * (4294967296 - d) :=
    mul_nonneg (by omega) (by omega)
  have hdd : (0 : Int) ≤ ((4294967296 : Int) - d) * (2 * d - 4294967296) :=
    mul_nonneg (by omega) (by omega)
  have hdsq : (0 : Int) ≤ (d : Int) * d := mul_nonneg (by omega) (by omega)
  -- the true quotient fits one word
  have hQβ : (Q : Int) < 4294967296 := by
    by_contra hcon
    push_neg at hcon
    have hdQ : (d : Int) * 4294967296 ≤ (d : Int) * Q :=
      mul_le_mul_of_nonneg_left hcon (by omega)
    have hu1b : (u1 : Int) * 4294967296 ≤ ((d : Int) - 1) * 4294967296 :=
      mul_le_mul_of_nonneg_right (by omega) (by norm_num)
    linarith only [h1, hdQ, hu1b, hu0I, hRn]
  have hQβN : Q < 4294967296 := by exact_mod_cast hQβ
  -- the quotient estimate a + u1 + 1 is off by at most one
  have hXub : (Q : Int) - (a + u1 + 1) < 2 := by
    by_contra hcon
    push_neg at hcon
    have h2b : (2 : Int) * ((d : Int) * 4294967296)
        ≤ ((Q : Int) - (a + u1 + 1)) * ((d : Int) * 4294967296) :=
      mul_le_mul_of_nonneg_right hcon (by positivity)
    linarith only [key, hB1, hB2, hdpU, hβRn, hcd, h2b, hdsq, hdI1]
  have hXlb : (-2 : Int) < (Q : Int) - (a + u1 + 1) := by
    by_contra hcon
    push_neg at hcon
    have h2b : ((Q : Int) - (a + u1 + 1)) * ((d : Int) * 4294967296)
        ≤ (-2 : Int) * ((d : Int) * 4294967296) :=
      mul_le_mul_of_nonneg_right hcon (by positivity)
    linarith only [key, hB1n, hB2n, hdpn, hβRU, h2b]
  have hcase : (Q : Int) - (a + u1 + 1) = -1 ∨ (Q : Int) - (a + u1 + 1) = 0 ∨
      (Q : Int) - (a + u1 + 1) = 1 := by omega
  -- it now suffices to evaluate the algorithm to (Q, R)
  suffices hfinal : ucal_u32DivGM u1 u0 d v = (Q, R) by
    rw [hfinal, ← hQ, ← hR]
    exact ⟨rfl, rfl⟩
  unfold ucal_u32DivGM
  dsimp only
  rw [hA, Nat.mod_eq_of_lt hAlt, hp, ha]
  obtain ⟨w, hw⟩ : ∃ w, (a + u1 + 1) % 4294967296 = w := ⟨_, rfl⟩
  rw [hw]
  obtain ⟨r0, hr0⟩ : ∃ r0, sub32 u0 (w * d) = r0 := ⟨_, rfl⟩
  rw [hr0]
  have hwβ : w < 4294967296 := by
    rw [← hw]
    exact Nat.mod_lt _ (by norm_num)
  have hwI : (w : Int) = ((a : Int) + u1 + 1) % 4294967296 := by
    rw [← hw]
    push_cast
    rfl
  obtain ⟨k, hk⟩ : ∃ k : Int, ((a : Int) + u1 + 1) = 4294967296 * k + w :=
    ⟨((a : Int) + u1 + 1) / 4294967296, by rw [hwI]; exact (Int.ediv_add_emod _ _).symm⟩
  rcases hcase with hX | hX | hX
  · -- overestimate: a + u1 + 1 = Q + 1; the first correction fires
    have key1 : (0 : Int) = u1 * (e + 1) + u0 * (4294967296 - d) + d * p - 4294967296 * R := by
      linear_combination key - ((d : Int) * 4294967296) * hX
    have hr0I : (r0 : Int) = (R : Int) + 4294967296 - d := by
      rw [← hr0]
      apply sub32_eq_of_modeq u0 (w * d) ((R : Int) + 4294967296 - d) hu0 (by omega) (by omega)
      push_cast
      have hwd : (w : Int) * d = ((a : Int) + u1 + 1) * d - 4294967296 * (k * d) := by
        rw [hk]
        ring
      rw [hwd]
      have haq : ((a : Int) + u1 + 1) = (Q : Int) + 1 := by omega
      rw [haq]
      have hsplit : (u0 : Int) - (((Q : Int) + 1) * d - 4294967296 * (k * d))
          = ((u0 : Int) - ((Q : Int) + 1) * d) + 4294967296 * (k * d) := by ring
      rw [hsplit, Int.add_mul_emod_self_left]
      have hlin : (u0 : Int) - ((Q : Int) + 1) * d = (R : Int) - d - u1 * 4294967296 := by
        linear_combination h1
      rw [hlin]
      omega
    have hr0N : r0 = R + 4294967296 - d := by omega
    -- the test fires: p < r0
    have hRc : (R : Int) * (4294967296 - d) ≤ ((d : Int) - 1) * (4294967296 - d) :=
      mul_le_mul_of_nonneg_right (by omega) (by omega)
    have hdp2 : (d : Int) * p < (d : Int) * ((R : Int) + 4294967296 - d) := by
      linarith only [key1, hRc, hB1n, hB2n, hdI2]
    have hpr : (p : Int) < (R : Int) + 4294967296 - d :=
      lt_of_mul_lt_mul_left hdp2 (by omega)
    have hfire : r0 > p := by omega
    rw [if_pos hfire]
    dsimp only
    have haddN : add32 r0 d = R := by
      rw [hr0N]
      unfold add32
      omega
    have hswI : (sub32 w 1 : Int) = Q := by
      apply sub32_eq_of_modeq w 1 (Q : Int) hwβ (by omega) (by omega)
      have hlin : (w : Int) - 1 = (Q : Int) - 4294967296 * k := by omega
      omega
    have hswN : sub32 w 1 = Q := by exact_mod_cast hswI
    rw [haddN, if_neg (show ¬ R ≥ d by omega), hswN]
  · -- exact estimate: a + u1 + 1 = Q
    have key0 : (0 : Int) = u1 * (e + 1) + u0 * (4294967296 - d) + d * p
        - d * 4294967296 - 4294967296 * R := by
      linear_combination key - ((d : Int) * 4294967296) * hX
    have haQ : a + u1 + 1 = Q := by
      have : ((a : Int) + u1 + 1) = Q := by omega
      exact_mod_cast this
    have hwQ : w = Q := by
      rw [← hw, haQ]
      exact Nat.mod_eq_of_lt hQβN
    have hr0I : (r0 : Int) = R := by
      rw [← hr0]
      apply sub32_eq_of_modeq u0 (w * d) (R : Int) hu0 (by omega) (by omega)
      push_cast
      have hwd : (w : Int) * d = (Q : Int) * d := by
        rw [show (w : Int) = Q by exact_mod_cast hwQ]
      rw [hwd]
      have hlin : (u0 : Int) - (Q : Int) * d = (R : Int) - u1 * 4294967296 := by
        linear_combination h1
      rw [hlin]
      omega
    have hr0N : r0 = R := by exact_mod_cast hr0I
    by_cases hmis : r0 > p
    · -- test misfire: corrected back by the second test
      have hmisI : (p : Int) < R := by omega
      have hdpR : (d : Int) * p < (d : Int) * R := mul_lt_mul_of_pos_left hmisI (by omega)
      have hRsmall : (R : Int) < 4294967296 - d := by
        by_contra hcon
        push_neg at hcon
        have hsq : ((4294967296 : Int) - d) * (4294967296 - d) ≤ (R : Int) * (4294967296 - d) :=
          mul_le_mul_of_nonneg_right hcon (by omega)
        linarith only [key0, hdpR, hB1, hB2, hsq]
      rw [if_pos hmis]
      dsimp only
      have haddN : add32 r0 d = R + d := by
        rw [hr0N]
        exact add32_eq_of_lt (by omega)
      have hQ1 : 1 ≤ Q := by omega
      have hswN : sub32 Q 1 = Q - 1 := by
        unfold sub32 chop32
        omega
      have hadd1 : add32 (Q - 1) 1 = Q := by
        unfold add32
        omega
      rw [haddN, if_pos (show R + d ≥ d by omega), hwQ, hswN, hadd1, Nat.add_sub_cancel]
    · -- no misfire: the result is already exact
      rw [if_neg hmis]
      dsimp only
      rw [hr0N, hwQ, if_neg (show ¬ R ≥ d by omega)]
  · -- underestimate: a + u1 + 1 = Q - 1; the second correction fires
    have key2 : (0 : Int) = u1 * (e + 1) + u0 * (4294967296 - d) + d * p
        - 2 * (d * 4294967296) - 4294967296 * R := by
      linear_combination key - ((d : Int) * 4294967296) * hX
    have hRsm : (R : Int) < 4294967296 - d := by
      have hd2d : (d : Int) * d < (d : Int) * 4294967296 :=
        mul_lt_mul_of_pos_left hdI2 (by omega)
      have hβR2 : (4294967296 : Int) * R < 4294967296 * (4294967296 - d) := by
        linarith only [key2, hB1, hB2, hdpU, hd2d, hdI1]
      linarith only [hβR2]
    have haQ : a + u1 + 2 = Q := by
      have : ((a : Int) + u1 + 2) = Q := by omega
      exact_mod_cast this
    have hwv : w = Q - 1 := by
      rw [← hw]
      have haq1 : a + u1 + 1 = Q - 1 := by omega
      rw [haq1]
      exact Nat.mod_eq_of_lt (by omega)
    have hr0I : (r0 : Int) = (R : Int) + d := by
      rw [← hr0]
      apply sub32_eq_of_modeq u0 (w * d) ((R : Int) + d) hu0 (by omega) (by omega)
      push_cast
      have hwd : (w : Int) * d = ((a : Int) + u1 + 1) * d - 4294967296 * (k * d) := by
        rw [hk]
        ring
      rw [hwd]
      have haq : ((a : Int) + u1 + 1) = (Q : Int) - 1 := by omega
      rw [haq]
      have hsplit : (u0 : Int) - (((Q : Int) - 1) * d - 4294967296 * (k * d))
          = ((u0 : Int) - ((Q : Int) - 1) * d) + 4294967296 * (k * d) := by ring
      rw [hsplit, Int.add_mul_emod_self_left]
      have hlin : (u0 : Int) - ((Q : Int) - 1) * d = (R : Int) + d - u1 * 4294967296 := by
        linear_combination h1
      rw [hlin]
      omega
    have hr0N : r0 = R + d := by omega
    -- the first test must not fire: R + d ≤ p
    have hRc0 : (0 : Int) ≤ (R : Int) * (4294967296 - d) := mul_nonneg (by omega) (by omega)
    have hdpL : (d : Int) * ((R : Int) + d) ≤ (d : Int) * p := by
      linarith only [key2, hB1, hB2, hdd, hRc0]
    have hple : (R : Int) + d ≤ p := le_of_mul_le_mul_left hdpL (by omega)
    have hnofire : ¬ r0 > p := by omega
    rw [if_neg hnofire]
    dsimp only
    rw [hr0N, if_pos (show R + d ≥ d by omega), hwv]
    have hadd1 : add32 (Q - 1) 1 = Q := by
      unfold add32
      omega
    rw [hadd1, Nat.add_sub_cancel]

/-- Witness for the division-step theorem: `7·2^32 + 9` divided by
`2^31 + 1`. -/
theorem c2_u32DivGM_witness :
    (ucal_u32DivGM 7 9 2147483649 4294967292).1 = (7 * 4294967296 + 9) / 2147483649 ∧
    (ucal_u32DivGM 7 9 2147483649 4294967292).2 = (7 * 4294967296 + 9) % 2147483649 :=
  c2_u32DivGM 7 9 2147483649 4294967292 (by decide) (by decide) (by decide)
    (by decide) (by decide)


/-! ### C6: weekday shift saturation (`common.c`) -/

/-- C6: counterexample to the saturation contract of the backward weekday
shifts.  The previous Thursday-or-earlier day strictly before RDN
`INT32_MIN` is `INT32_MIN - 1`, which is not representable, so by the
header documentation `ucal_WdLT` must return `INT32_MIN` and raise ERANGE.
Because `checkedSub` computes its headroom as
`(uint32_t)rdn - (uint32_t)INT32_MAX` (one more than the true distance to
`INT32_MIN`), the subtraction is allowed and wraps around to `INT32_MAX`
with no error. -/
theorem c6_wdlt_wraps :
    ucal_i32SubMod7 (-2147483648) (4 + 1) = 0 ∧
    ucal_WdLT (-2147483648) 4 = (2147483647, false) := by decide

/-! ### C7: `isoweek.c` week count with saturation -/

/-- From `isoweek.c`: `ccofs_y2w` (century interpolation offset); the
argument is the century count reinterpreted as `unsigned`. -/
def ccofs_y2w (cc : Nat) : Nat :=
  let c1 := (4294967297 - cc % 4294967296) % 4
  let c2 := 2 * c1 - c1 / 2
  157 + c2 * 146

/-- From `isoweek.c`: `_weeksInYears` (exact on `int64_t`; the unsigned
interpolation sum fits 32 bits, so it needs no wrap-around). -/
def weeksInYears (years : Int) : Int :=
  (ucal_iu32Div years 100).1 * 5218 - ucal_i32Asr ((ucal_iu32Div years 100).1 + 2) 2
    + (((ucal_iu32Div years 100).2 * 53431
        + ccofs_y2w (u32ofInt (ucal_iu32Div years 100).1)) / 1024 : Nat)

/-- From `isoweek.c`: `ucal_WeeksInYearsWD`.  The source tests
`w > INT32_MAX` twice (the second arm is dead code); no branch handles
`w < INT32_MIN`, so a negative out-of-range count falls through to the
plain `(int32_t)w` conversion (wrap-around, as gcc defines it).  The
`Bool` component models `errno == ERANGE`. -/
def ucal_WeeksInYearsWD (years : Int) : Int × Bool :=
  if weeksInYears years > 2147483647 then (2147483647, true)
  else if weeksInYears years > 2147483647 then (2147483647, true)
  else (ucal_u32_i32 (u32ofInt (weeksInYears years)), false)

/-- C7: counterexample to the saturate-on-overflow contract of
`ucal_WeeksInYearsWD`.  At `years = -100000000` the exact week count is
`-5217750000`, far below `INT32_MIN`; the duplicated positive-overflow
branch means the function returns the wrapped value `-922782704` with no
range error, which is neither the exact count nor the saturated
`INT32_MIN`. -/
theorem c7_weeksInYears_wraps :
    weeksInYears (-100000000) = -5217750000 ∧
    weeksInYears (-100000000) < -2147483648 ∧
    ucal_WeeksInYearsWD (-100000000) = (-922782704, false) := by decide

/-! ### C10: `julian.c` date splitting and failure atomicity -/

/-- From `julian.c`: `ucal_DaysToYearsJD` (wide-register branch).  The
scaled dividend is the 64-bit word `4*rdn + 7`, the sign mask is
`-(rdn < -1)` (equivalently, the dividend is negative), and the remainder
is reduced on 32-bit words. -/
def ucal_DaysToYearsJD (rdn : Int) : (Int × Nat) × Bool :=
  ((ucal_u32_i32 (chop32 (maskDiv64 (4 * rdn + 7) 1461)),
    sub32 (chop32 (u64ofInt (4 * rdn + 7))) (chop32 (maskDiv64 (4 * rdn + 7) 1461) * 1461) / 4),
   decide (chop32 (maskDiv64 (4 * rdn + 7) 1461) % 4 = 3))

/-- From `julian.c`: `ucal_RdnToDateJD`; the year check happens before any
store, so on failure the output record is returned unchanged. -/
def ucal_RdnToDateJD (into : CivilDate) (rdn : Int) : Bool × CivilDate :=
  if (ucal_DaysToYearsJD rdn).1.1 + 1 < -32768 ∨ (ucal_DaysToYearsJD rdn).1.1 + 1 > 32767 then
    (false, into)
  else
    (true,
      { dWDay := ucal_i32SubMod7 rdn 1 + 1
        fLeap := (ucal_DaysToYearsJD rdn).2
        dYear := (ucal_DaysToYearsJD rdn).1.1 + 1
        dYDay := ((ucal_DaysToYearsJD rdn).1.2 : Int) + 1
        dMonth := ((ucal_DaysToMonth (ucal_DaysToYearsJD rdn).1.2
            (ucal_DaysToYearsJD rdn).2).1 : Int) + 1
        dMDay := ((ucal_DaysToMonth (ucal_DaysToYearsJD rdn).1.2
            (ucal_DaysToYearsJD rdn).2).2 : Int) + 1 })

/-- From `julian.c`: `ucal_DateToRdnJD` (shifted-calendar conversion;
`ucal_LeapDaysInYearsJD` is the arithmetic shift by 2). -/
def ucal_DateToRdnJD (y m d : Int) : Int :=
  (y - 1 + (ucal_MonthsToDays m).1) * 365
    + ucal_i32Asr (y - 1 + (ucal_MonthsToDays m).1) 2
    + (ucal_MonthsToDays m).2 + d - 308

/-- C10: failure atomicity of both date-splitting entry points.  The
split fails exactly when the calendar year leaves the `int16_t` range,
and on failure the output record is returned untouched (the C functions
write the fields only on the success path). -/
theorem c10_rdnToDate_atomic (into : CivilDate) (rdn : Int) :
    ((ucal_RdnToDateGD into rdn).1 = false ↔
      ((ucal_DaysToYearsGD rdn).1.1 + 1 < -32768 ∨ (ucal_DaysToYearsGD rdn).1.1 + 1 > 32767)) ∧
    ((ucal_RdnToDateGD into rdn).1 = false → (ucal_RdnToDateGD into rdn).2 = into) ∧
    ((ucal_RdnToDateJD into rdn).1 = false ↔
      ((ucal_DaysToYearsJD rdn).1.1 + 1 < -32768 ∨ (ucal_DaysToYearsJD rdn).1.1 + 1 > 32767)) ∧
    ((ucal_RdnToDateJD into rdn).1 = false → (ucal_RdnToDateJD into rdn).2 = into) := by
  unfold ucal_RdnToDateGD ucal_RdnToDateJD
  by_cases hg : (ucal_DaysToYearsGD rdn).1.1 + 1 < -32768 ∨ (ucal_DaysToYearsGD rdn).1.1 + 1 > 32767
  all_goals by_cases hj : (ucal_DaysToYearsJD rdn).1.1 + 1 < -32768 ∨
      (ucal_DaysToYearsJD rdn).1.1 + 1 > 32767
  all_goals simp only [if_pos, if_neg, hg, hj, if_true, if_false]
  all_goals simp [hg, hj]

/-- Witness for the atomicity theorem: at RDN 12000000 the year is about
32855, outside `int16_t`, for both calendars; the record passed in comes
back unchanged. -/
theorem c10_rdnToDate_atomic_witness :
    (ucal_RdnToDateGD ⟨1, 2, 3, false, 4, 5⟩ 12000000).2 = ⟨1, 2, 3, false, 4, 5⟩ ∧
    (ucal_RdnToDateJD ⟨1, 2, 3, false, 4, 5⟩ 12000000).2 = ⟨1, 2, 3, false, 4, 5⟩ := by
  have h := c10_rdnToDate_atomic ⟨1, 2, 3, false, 4, 5⟩ 12000000
  exact ⟨h.2.1 (h.1.mpr (by decide)), h.2.2.2 (h.2.2.1.mpr (by decide))⟩

/-! ### C8: `ucal_DaysToMonth` versus the spec's padding rule -/

/-- Spec-modelled variant of `ucal_DaysToMonth`, written from the spec's
words for comparison: the February pad is added when
`ed >= 59 + (leap ? 0 : 1)` (the code's own condition is
`ed >= 61 - skipdays`, which is `ed >= 59 + (leap ? 1 : 0)`). -/
def daysToMonth_spec (ed : Nat) (leap : Bool) : Nat × Nat :=
  let pad := 1 + (if leap then 0 else 1)
  let ed1 := if ed ≥ 59 + (if leap then 0 else 1) then ed + pad else ed
  let m := (ed1 * 67 + 32) / 2048
  (m, ed1 - (m * 489 + 8) / 16)

/-- C8: counterexample to the spec's padding threshold.  On day-of-year
59 of a leap year (February 29), the code's threshold leaves the day
unpadded and yields the correct (1, 28); the spec's swapped threshold
pads it and yields (1, 29), i.e. February 30, an invalid date. -/
theorem c8_daysToMonth_counterexample :
    ucal_DaysToMonth 59 true = (1, 28) ∧
    daysToMonth_spec 59 true = (1, 29) ∧
    ¬ daysToMonth_spec 59 true = ucal_DaysToMonth 59 true ∧
    doy0 true ((ucal_DaysToMonth 59 true).1 + 1) ((ucal_DaysToMonth 59 true).2 + 1) = 59 ∧
    (ucal_mdtab true).getD 1 0 = 29 := by decide

set_option maxRecDepth 40000 in
/-- C8 (amended): `ucal_DaysToMonth` pads when
`ed >= 59 + (leap ? 1 : 0)` (not `59 + (leap ? 0 : 1)` as the spec
words it), then applies `m = (ed*67 + 32) >> 11` and
`d = ed - ((489*m + 8) >> 4)`; for every valid day-of-year the result is
the true 0-based month and day of the month-length table. -/
theorem c8_daysToMonth : ∀ leap : Bool, ∀ ed : Nat, ed < 366 →
    ed ≤ 364 + leapBit leap →
    ucal_DaysToMonth ed leap
      = ((((if ed ≥ 59 + (if leap then 1 else 0) then ed + (1 + (if leap then 0 else 1))
            else ed) * 67 + 32) / 2048),
         ((if ed ≥ 59 + (if leap then 1 else 0) then ed + (1 + (if leap then 0 else 1))
            else ed)
          - ((((if ed ≥ 59 + (if leap then 1 else 0) then ed + (1 + (if leap then 0 else 1))
                else ed) * 67 + 32) / 2048) * 489 + 8) / 16)) ∧
    (ucal_DaysToMonth ed leap).1 ≤ 11 ∧
    (ucal_DaysToMonth ed leap).2 + 1
      ≤ (ucal_mdtab leap).getD (ucal_DaysToMonth ed leap).1 0 ∧
    doy0 leap ((ucal_DaysToMonth ed leap).1 + 1) ((ucal_DaysToMonth ed leap).2 + 1) = ed := by
  decide

/-- Witness for the amended padding theorem at the counterexample point
`ed = 59` of a leap year. -/
theorem c8_daysToMonth_witness :
    ucal_DaysToMonth 59 true
      = ((((if 59 ≥ 59 + (if true then 1 else 0) then 59 + (1 + (if true then 0 else 1))
            else 59) * 67 + 32) / 2048),
         ((if 59 ≥ 59 + (if true then 1 else 0) then 59 + (1 + (if true then 0 else 1))
            else 59)
          - ((((if 59 ≥ 59 + (if true then 1 else 0) then 59 + (1 + (if true then 0 else 1))
                else 59) * 67 + 32) / 2048) * 489 + 8) / 16)) ∧
    doy0 true ((ucal_DaysToMonth 59 true).1 + 1) ((ucal_DaysToMonth 59 true).2 + 1) = 59 :=
  ⟨(c8_daysToMonth true 59 (by decide) (by decide)).1,
   (c8_daysToMonth true 59 (by decide) (by decide)).2.2.2⟩

/-! ### C4: `ntpdate.c` periodic NTP expansion -/

/-- From `ntpdate.c`: `ucal_NtpToTime` with a 64-bit `time_t` and a
non-null pivot.  `tbase` is `pivot - 0x80000000` when the pivot exceeds
`INT32_MAX` and 0 otherwise; the additions on `secs` are 32-bit
wrap-around, and the final addition is on `time_t`.
`UCAL_sysPhiNTP = 0x7c558180 = 2085978496`. -/
def ucal_NtpToTime (secs : Nat) (pivot : Int) : Int :=
  (if pivot > 2147483647 then pivot - 2147483648 else 0)
    + (sub32 (add32 secs 2085978496)
        (u32ofInt (if pivot > 2147483647 then pivot - 2147483648 else 0)) : Nat)

/-- C4: counterexample to the claimed window.  With `pivot = 0` (below
`INT32_MAX`) the expansion base is 0 and the result is simply
`(secs + sysPhiNTP) mod 2^32`, which for `secs = 2^31` is 4233462144 —
far outside the claimed window `[pivot - 2^31, pivot + 2^31)`. -/
theorem c4_ntpToTime_counterexample :
    ucal_NtpToTime 2147483648 0 = 4233462144 ∧
    ¬ ucal_NtpToTime 2147483648 0 < 0 + 2147483648 := by decide

/-- C4 (amended): the result is always congruent to `secs + sysPhiNTP`
modulo `2^32` and never negative; the claimed window
`[pivot - 2^31, pivot + 2^31)` holds when `pivot > INT32_MAX`, while for
any smaller pivot the result lies in `[0, 2^32)` instead. -/
theorem c4_ntpToTime (secs : Nat) (pivot : Int) (hs : secs < 4294967296) :
    (ucal_NtpToTime secs pivot) % 4294967296 = ((secs : Int) + 2085978496) % 4294967296 ∧
    0 ≤ ucal_NtpToTime secs pivot ∧
    (2147483647 < pivot →
      pivot - 2147483648 ≤ ucal_NtpToTime secs pivot ∧
      ucal_NtpToTime secs pivot < pivot + 2147483648) ∧
    (pivot ≤ 2147483647 → ucal_NtpToTime secs pivot < 4294967296) := by
  unfold ucal_NtpToTime add32 sub32 chop32 u32ofInt
  by_cases hp : pivot > 2147483647
  · rw [if_pos hp]
    refine ⟨by omega, by omega, fun h => ⟨by omega, by omega⟩, fun h => absurd hp (by omega)⟩
  · rw [if_neg hp]
    refine ⟨by omega, by omega, fun h => absurd hp (by omega), fun h => by omega⟩

/-- Witness for the NTP expansion theorem at `secs = 0` with a modern
(64-bit) pivot. -/
theorem c4_ntpToTime_witness :
    (ucal_NtpToTime 0 10000000000) % 4294967296 = ((0 : Int) + 2085978496) % 4294967296 ∧
    0 ≤ ucal_NtpToTime 0 10000000000 ∧
    10000000000 - 2147483648 ≤ ucal_NtpToTime 0 10000000000 ∧
    ucal_NtpToTime 0 10000000000 < 10000000000 + 2147483648 := by
  have h := c4_ntpToTime 0 10000000000 (by decide)
  have h3 := h.2.2.1 (by decide)
  exact ⟨h.1, h.2.1, h3.1, h3.2⟩

/-! ### C5: `gpsdate.c` raw-stamp unfolding -/

/-- From `gpsdate.c`: `ucal_GpsMapRaw1`.  The week time is split by
86400 after the leap-second correction (the `uint32_t` argument `t` is
passed through an `int32_t` parameter, hence `ucal_u32_i32`), the day
count accumulates `(w & 1023)*7 + phiGPS`, the base day is clamped to
`rdnGPS = 722820`, the difference is reduced mod `7*1024 = 7168` days,
and the final addition saturates to `INT32_MAX` (with ERANGE, the `Bool`)
on unsigned compare overflow. -/
def ucal_GpsMapRaw1 (w t : Nat) (ls baseRdn : Int) : (Int × Nat) × Bool :=
  if (ucal_iu32SubDiv (((w % 1024 : Nat) : Int) * 7
          + (ucal_iu32SubDiv (ucal_u32_i32 t) ls 86400).1 + 6019 + 1)
        (if baseRdn < 722820 then 722820 else baseRdn) 7168).2
      > sub32 (u32ofInt 2147483647)
          (u32ofInt (if baseRdn < 722820 then 722820 else baseRdn)) then
    ((2147483647, (ucal_iu32SubDiv (ucal_u32_i32 t) ls 86400).2), true)
  else
    (((if baseRdn < 722820 then 722820 else baseRdn)
        + ((ucal_iu32SubDiv (((w % 1024 : Nat) : Int) * 7
              + (ucal_iu32SubDiv (ucal_u32_i32 t) ls 86400).1 + 6019 + 1)
            (if baseRdn < 722820 then 722820 else baseRdn) 7168).2 : Nat),
      (ucal_iu32SubDiv (ucal_u32_i32 t) ls 86400).2), false)

/-- The reinterpretation of a 32-bit word as `int32_t` stays in range. -/
theorem u32_i32_range (v : Nat) :
    -2147483648 ≤ ucal_u32_i32 v ∧ ucal_u32_i32 v < 2147483648 := by
  unfold ucal_u32_i32
  split <;> omega

/-- Range of the day produced by `ucal_GpsMapRaw1` when it does not
saturate: it lies in the 1024-week period starting at the clamped
base. -/
theorem gpsMapRaw1_bound (w t : Nat) (ls baseRdn : Int) (hw : w < 65536)
    (ht : t < 4294967296) (hls1 : -32768 ≤ ls) (hls2 : ls ≤ 32767)
    (hb1 : -2147483648 ≤ baseRdn) (hb2 : baseRdn < 2147483648)
    (hflag : (ucal_GpsMapRaw1 w t ls baseRdn).2 = false) :
    (if baseRdn < 722820 then (722820 : Int) else baseRdn)
        ≤ (ucal_GpsMapRaw1 w t ls baseRdn).1.1 ∧
    (ucal_GpsMapRaw1 w t ls baseRdn).1.1
        < (if baseRdn < 722820 then (722820 : Int) else baseRdn) + 7168 := by
  have htr := u32_i32_range t
  have hdt := iu32SubDiv_eq (ucal_u32_i32 t) ls 86400 (by norm_num) (by norm_num)
    htr.1 htr.2 (by omega) (by omega)
  have hwm : (w % 1024) < 1024 := Nat.mod_lt _ (by norm_num)
  have hqb : -24858 ≤ (ucal_u32_i32 t - ls) / 86400 ∧
      (ucal_u32_i32 t - ls) / 86400 ≤ 24857 := by omega
  unfold ucal_GpsMapRaw1 at hflag ⊢
  obtain ⟨B, hB⟩ : ∃ B : Int, (if baseRdn < 722820 then (722820 : Int) else baseRdn) = B :=
    ⟨_, rfl⟩
  have hBr : 722820 ≤ B ∧ B < 2147483648 := by
    rw [← hB]
    split <;> exact ⟨by omega, by omega⟩
  rw [hB] at hflag ⊢
  have houter := iu32SubDiv_eq
    (((w % 1024 : Nat) : Int) * 7 + (ucal_iu32SubDiv (ucal_u32_i32 t) ls 86400).1 + 6019 + 1)
    B 7168 (by norm_num) (by norm_num)
    (by rw [hdt]; dsimp only; omega) (by rw [hdt]; dsimp only; omega)
    (by omega) (by omega)
  rw [houter] at hflag ⊢
  dsimp only at hflag ⊢
  split at hflag
  · exact absurd hflag (by simp)
  · split
    · omega
    · dsimp only
      constructor
      · omega
      · omega

/-- C5: the GPS raw-stamp unfolding maps forward into the 1024-week
period starting at the clamped base day: the three reference points of
the spec, and in general the returned day lies in `[base, base + 7168)`
with `base = max(baseRdn, rdnGPS)` whenever no saturation occurs. -/
theorem c5_gpsMapRaw1 :
    ucal_GpsMapRaw1 0 0 0 722820 = ((722820, 0), false) ∧
    ucal_GpsMapRaw1 0 0 0 (722820 + 1024 * 7) = ((722820 + 1024 * 7, 0), false) ∧
    ucal_GpsMapRaw1 0 0 0 (722820 + 924 * 7) = ((722820 + 1024 * 7, 0), false) ∧
    (∀ w t : Nat, ∀ ls baseRdn : Int, w < 65536 → t < 4294967296 →
      -32768 ≤ ls → ls ≤ 32767 → -2147483648 ≤ baseRdn → baseRdn < 2147483648 →
      (ucal_GpsMapRaw1 w t ls baseRdn).2 = false →
      (if baseRdn < 722820 then (722820 : Int) else baseRdn)
          ≤ (ucal_GpsMapRaw1 w t ls baseRdn).1.1 ∧
      (ucal_GpsMapRaw1 w t ls baseRdn).1.1
          < (if baseRdn < 722820 then (722820 : Int) else baseRdn) + 7168) := by
  refine ⟨by decide, by decide, by decide, ?_⟩
  intro w t ls baseRdn hw ht hls1 hls2 hb1 hb2 hflag
  exact gpsMapRaw1_bound w t ls baseRdn hw ht hls1 hls2 hb1 hb2 hflag

/-- Witness for the GPS raw-stamp theorem: the in-range part applied one
week and one day into era 0. -/
theorem c5_gpsMapRaw1_witness :
    (ucal_GpsMapRaw1 1 86400 0 0).2 = false ∧
    (722820 : Int) ≤ (ucal_GpsMapRaw1 1 86400 0 0).1.1 ∧
    (ucal_GpsMapRaw1 1 86400 0 0).1.1 < (722820 : Int) + 7168 := by
  have h := (c5_gpsMapRaw1.2.2.2 1 86400 0 0 (by decide) (by decide) (by decide)
    (by decide) (by decide) (by decide) (by decide))
  exact ⟨by decide, by simpa using h.1, by simpa using h.2⟩


/-! ### C9: `tsdecode.c` decimal fraction to Q0.32 -/

/-- ASCII digit test (`isdigit` on the ASCII range used by the decoder). -/
def isDigitCh (c : Char) : Bool := decide (48 ≤ c.toNat ∧ c.toNat ≤ 57)

/-- The longest digit prefix of the input (the scan loop of
`ucal_decFrac_raw`; the C function advances `*pstr` past it). -/
def digitPrefix : List Char → List Char
  | [] => []
  | c :: cs => if isDigitCh c then c :: digitPrefix cs else []

/-- The digit prefix with trailing `'0'` digits removed; its length is
`lnz - str` of the C scan loop. -/
def dropTrailingZeros (ds : List Char) : List Char :=
  (ds.reverse.dropWhile (fun c => decide (c = '0'))).reverse

/-- From `tsdecode.c`: `_ucal_pnum` (digit group accumulator; a group has
at most 8 digits, so the `uint32_t` cannot wrap). -/
def pnum : List Char → Nat → Nat
  | [], a => a
  | c :: cs, a => pnum cs (a * 10 + (c.toNat - 48))

/-- From `tsdecode.c`: the `pow10tab` lookup. -/
def pow10t (n : Nat) : Nat :=
  [100000000, 10000000, 1000000, 100000, 10000, 1000, 100, 10, 1].getD n 0

/-- Split a digit list into front-to-back chunks of eight digits (the
loop of `ucal_decFrac_raw` consumes `((len-1) & 7) + 1` digits from the
back each round, which is exactly the reversed list of these chunks).
The explicit fuel keeps the recursion structural. -/
def chunks8 (fuel : Nat) (l : List Char) : List (List Char) :=
  match fuel with
  | 0 => []
  | fuel + 1 =>
    match l with
    | [] => []
    | _ => l.take 8 :: chunks8 fuel (l.drop 8)

/-- One round of the super-digit loop of `ucal_decFrac_raw`: the state is
`(accu.q, xrem, drop)`; the scaled group becomes the high word, the
32-fold shifts are `uint32_t` operations, and the Granlund-Möller step
divides by `D = 0xbebc2000` with inverse `V = 0x5798ee23`. -/
def decRound (st : Nat × Nat × Bool) (grp : List Char) : Nat × Nat × Bool :=
  (((ucal_u32DivGM
      ((((pnum grp 0 * pow10t grp.length) * 32) % 4294967296) ||| (st.1 / 134217728))
      (((st.1 * 32) % 4294967296) ||| (st.2.1 / 134217728))
      3200000000 1469640227).1,
    (ucal_u32DivGM
      ((((pnum grp 0 * pow10t grp.length) * 32) % 4294967296) ||| (st.1 / 134217728))
      (((st.1 * 32) % 4294967296) ||| (st.2.1 / 134217728))
      3200000000 1469640227).2,
    st.2.2 || decide ((st.2.1 * 32) % 4294967296 ≠ 0)))

/-- From `tsdecode.c`: `ucal_decFrac_raw` on the digit prefix of the
input (inputs shorter than the 128-byte `strnlen` cap).  The effective
digits are clamped to 24 with a sticky `drop` flag, folded back-to-front
in super-digits of base `10^8`, and the final rounding is half-to-even
with the sticky bit forcing a round-up on ties.  The result is
`(carry, fraction)`. -/
def ucal_decFrac_raw (s : List Char) : Nat × Nat :=
  let ds := digitPrefix s
  let lnz := (dropTrailingZeros ds).length
  let proc := if lnz > 24 then ds.take 24 else ds.take lnz
  let st := ((chunks8 proc.length proc).reverse).foldl decRound
    (0, 0, decide (lnz > 24))
  if st.2.1 > 1600000000 then
    ((if (st.1 + 1) % 4294967296 = 0 then 1 else 0), (st.1 + 1) % 4294967296)
  else if st.2.1 < 1600000000 then (0, st.1)
  else if st.1 % 2 = 1 || st.2.2 then
    ((if (st.1 + 1) % 4294967296 = 0 then 1 else 0), (st.1 + 1) % 4294967296)
  else (0, st.1)

/-- From `tsdecode.c`: `ucal_decFrac` (leading-dot wrapper). -/
def ucal_decFrac (s : List Char) : Nat × Nat :=
  match s with
  | c :: rest => if c = '.' then ucal_decFrac_raw rest else (0, 0)
  | [] => (0, 0)

/-- C9: the decimal-fraction decoder on the spec's reference inputs.
`".5"` maps to exactly one half; the 32-digit input (one half plus
`2^-32 + 2^-34 + ...`, above the tie) rounds up to `0x80000001` with the
digits beyond the 24th observed through the sticky bit; the 33-digit
input (one half plus exactly `2^-33`) is a tie at fraction `0x80000000.8`
and rounds half-to-even down to `0x80000000`. -/
theorem c9_decFrac :
    ucal_decFrac ".5".toList = (0, 2147483648) ∧
    ucal_decFrac ".50000000023283064365386962890624".toList = (0, 2147483649) ∧
    ucal_decFrac ".500000000116415321826934814453125".toList = (0, 2147483648) := by
  decide


/-! ### C3: `tzposix.c` POSIX zone strings and local-to-UTC conversion -/

/-- From `tzposix.h`: `tziPosixRuleT` (a transition rule; the bitfields
hold small nonnegative values except `rt_ttloc`, a signed 16-bit count of
minutes). -/
structure tziPosixRuleT where
  rt_month : Nat
  rt_mdmw : Nat
  rt_wday : Nat
  rt_ttloc : Int
  deriving DecidableEq

/-- From `tzposix.h`: `tziPosixZoneT` (zone names kept as the stored
character lists; offsets are `int16_t` minutes). -/
structure tziPosixZoneT where
  stdName : List Char
  dstName : List Char
  stdOffs : Int
  dstOffs : Int
  stdRule : tziPosixRuleT
  dstRule : tziPosixRuleT
  deriving DecidableEq

/-- From `tzposix.h`: `tziConvCtxT` without the zone pointer (the zone is
passed explicitly); all four time stamps are `int64_t` seconds. -/
structure tziConvCtxT where
  trLoBound : Int
  trHiBound : Int
  ttDST : Int
  ttSTD : Int
  deriving DecidableEq

/-- From `tzposix.h`: `tziConvInfoT`; the three one-bit fields are kept
as 0/1 numbers exactly as the C bitfields store them. -/
structure tziConvInfoT where
  isDst : Nat
  isHrA : Nat
  isHrB : Nat
  offs : Int
  deriving DecidableEq

/-- From `tzposix.h`: `tziCvtHintT` (conversion hints). -/
inductive tziCvtHintT where
  | hNone
  | hSTD
  | hDST
  | hHrA
  | hHrB
  deriving DecidableEq

/-- ASCII code of a character as the `int` the parser works on. -/
def chI (c : Char) : Int := (c.toNat : Int)

/-- The `isupper` test of the C locale on an `int` character code. -/
def isUpperI (x : Int) : Bool := decide (65 ≤ x ∧ x ≤ 90)

/-- The `isdigit` test of the C locale on an `int` character code. -/
def isDigitI (x : Int) : Bool := decide (48 ≤ x ∧ x ≤ 57)

/-- From `tzposix.c`: `tzi_PeekChar`; the parse context is the remaining
input, and `EOF` is `-1`. -/
def tzi_PeekChar : List Char → Int
  | [] => -1
  | c :: _ => chI c

/-- From `tzposix.c`: `tzi_ParseChar` (consume one expected character;
`EOF` matches exactly at the end of input). -/
def tzi_ParseChar (s : List Char) (xch : Int) : Bool × List Char :=
  match s with
  | [] => (decide (xch = -1), [])
  | c :: cs => if chI c = xch then (true, cs) else (false, c :: cs)

/-- The scan loop of the `<quoted>` name form: after the opening `<`,
characters are stored (at most 11, the buffer keeps a trailing NUL) until
the closing `>`; a second `<` aborts.  Returns success, the stored
characters and the remaining input. -/
def tzi_nameQ (acc : List Char) : List Char → Bool × List Char × List Char
  | [] => (false, acc, [])
  | c :: cs =>
    if c = '>' then (true, acc, cs)
    else if c = '<' then (false, acc, c :: cs)
    else tzi_nameQ (if acc.length < 11 then acc ++ [c] else acc) cs

/-- The scan loop of the CAPS name form: uppercase characters are
consumed and stored (at most 11) until a non-uppercase character. -/
def tzi_nameU (acc : List Char) : List Char → List Char × List Char
  | [] => (acc, [])
  | c :: cs =>
    if isUpperI (chI c) then
      tzi_nameU (if acc.length < 11 then acc ++ [c] else acc) cs
    else (acc, c :: cs)

/-- From `tzposix.c`: `tzi_ParseName` with `size = 12` (the field size in
`tziPosixZoneT`).  The stored characters are returned even on failure —
the C writes them into the destination buffer before deciding — but the
cursor only advances on success; the CAPS form needs at least three
stored characters. -/
def tzi_ParseName (s : List Char) : Bool × List Char × List Char :=
  match s with
  | [] => (false, [], [])
  | c :: cs =>
    if c = '<' then
      let r := tzi_nameQ [] cs
      (r.1, r.2.1, if r.1 then r.2.2 else c :: cs)
    else if isUpperI (chI c) then
      let r := tzi_nameU [] (c :: cs)
      (decide (3 ≤ r.1.length), r.1, if 3 ≤ r.1.length then r.2 else c :: cs)
    else (false, [], c :: cs)

/-- From `tzposix.c`: `tzi_ParseOptSign`; always succeeds, consumes a
single `+` or `-`, and reports whether it was `-` (the `switch`
falls through from the `-` case into the cursor bump). -/
def tzi_ParseOptSign (s : List Char) : Bool × List Char :=
  match s with
  | [] => (false, [])
  | c :: cs =>
    if c = '-' then (true, cs)
    else if c = '+' then (false, cs)
    else (false, c :: cs)

/-- The accumulation loop of `tzi_ParseNum`: digits are consumed while
the accumulator is still below 100 (so 999 is the largest value ever
parsed); `ret` records whether at least one digit was seen. -/
def tzi_numLoop (tmp : Nat) (ret : Bool) : List Char → Bool × Nat × List Char
  | [] => (ret, tmp, [])
  | c :: cs =>
    if tmp < 100 ∧ isDigitI (chI c) = true then
      tzi_numLoop (10 * tmp + (c.toNat - 48)) true cs
    else (ret, tmp, c :: cs)

/-- From `tzposix.c`: `tzi_ParseNum` (fails when no digit was
converted; the value is stored even then, as zero). -/
def tzi_ParseNum (s : List Char) : Bool × Nat × List Char :=
  tzi_numLoop 0 false s

/-- The unrolled `do`-loop of `tzi_ParseTime`: up to three numbers
separated by `:`.  After a number parses, the loop continues only when a
`:` is consumed; a missing number after a consumed `:` is a failure.
Returns the loop success, `tmpHMS[0..2]` and the remaining input. -/
def tzi_timeBody (s0 : List Char) : Bool × Nat × Nat × Nat × List Char :=
  let p0 := tzi_ParseNum s0
  if p0.1 = false then (false, p0.2.1, 0, 0, p0.2.2)
  else
    let c1 := tzi_ParseChar p0.2.2 (chI ':')
    if c1.1 = false then (true, p0.2.1, 0, 0, c1.2)
    else
      let p1 := tzi_ParseNum c1.2
      if p1.1 = false then (false, p0.2.1, p1.2.1, 0, p1.2.2)
      else
        let c2 := tzi_ParseChar p1.2.2 (chI ':')
        if c2.1 = false then (true, p0.2.1, p1.2.1, 0, c2.2)
        else
          let p2 := tzi_ParseNum c2.2
          (p2.1, p0.2.1, p1.2.1, p2.2.1, p2.2.2)

/-- From `tzposix.c`: `tzi_ParseTime`.  Hours are limited to 24 for zone
offsets and 168 for rule transition times, minutes to 59, and the
seconds field must be zero; the stored value (minutes, negated by a
leading `-`) is written even on failure, as zero. -/
def tzi_ParseTime (s : List Char) (isRuleTime : Bool) : Bool × Int × List Char :=
  let sg := tzi_ParseOptSign s
  let b := tzi_timeBody sg.2
  let retv := b.1 && decide (b.2.1 < if isRuleTime then 168 else 24)
      && decide (b.2.2.1 < 60) && decide (b.2.2.2.1 = 0)
  let v : Nat := if retv then 60 * b.2.1 + b.2.2.1 else 0
  (retv, if sg.1 then -(v : Int) else (v : Int), b.2.2.2.2)

/-- The common tail of `tzi_ParseRule`: when the rule body parsed and a
`/` follows, a rule transition time is parsed into `rt_ttloc` (stored
even when it fails, as zero); otherwise `rt_ttloc` defaults to 120. -/
def tzi_ruleTail (ret : Bool) (r : tziPosixRuleT) (s : List Char) :
    Bool × tziPosixRuleT × List Char :=
  if ret then
    let c := tzi_ParseChar s (chI '/')
    if c.1 then
      let t := tzi_ParseTime c.2 true
      (t.1, { r with rt_ttloc := t.2.1 }, t.2.2)
    else (ret, { r with rt_ttloc := 120 }, c.2)
  else (ret, { r with rt_ttloc := 120 }, s)

/-- From `tzposix.c`: `tzi_ParseRule` over the three POSIX rule forms
(`M<mon>.<week>.<wday>`, `J<n>`, bare `<n>`), updating the rule passed
in (fields other than `rt_ttloc` are only written on success). -/
def tzi_ParseRule (s : List Char) (into : tziPosixRuleT) :
    Bool × tziPosixRuleT × List Char :=
  let xch := tzi_PeekChar s
  if xch = chI 'M' then
    let s1 := s.drop 1
    let pa := tzi_ParseNum s1
    if pa.1 = false then tzi_ruleTail false into pa.2.2
    else
      let ca := tzi_ParseChar pa.2.2 (chI '.')
      if ca.1 = false then tzi_ruleTail false into ca.2
      else
        let pb := tzi_ParseNum ca.2
        if pb.1 = false then tzi_ruleTail false into pb.2.2
        else
          let cb := tzi_ParseChar pb.2.2 (chI '.')
          if cb.1 = false then tzi_ruleTail false into cb.2
          else
            let pc := tzi_ParseNum cb.2
            if pc.1 && decide (1 ≤ pa.2.1 ∧ pa.2.1 ≤ 12)
                && decide (1 ≤ pb.2.1 ∧ pb.2.1 ≤ 5) && decide (pc.2.1 ≤ 7) then
              tzi_ruleTail true
                { into with
                  rt_month := pa.2.1
                  rt_mdmw := pb.2.1
                  rt_wday := (pc.2.1 + 6) % 7 + 1 } pc.2.2
            else tzi_ruleTail false into pc.2.2
  else if xch = chI 'J' then
    let s1 := s.drop 1
    if isDigitI (tzi_PeekChar s1) then
      let p := tzi_ParseNum s1
      if p.1 && decide (1 ≤ p.2.1 ∧ p.2.1 ≤ 365) then
        tzi_ruleTail true
          { into with
            rt_month := (ucal_DaysToMonth (p.2.1 - 1) false).1 + 1
            rt_mdmw := (ucal_DaysToMonth (p.2.1 - 1) false).2 + 1
            rt_wday := 0 } p.2.2
      else tzi_ruleTail false into p.2.2
    else tzi_ruleTail false into s1
  else if isDigitI xch then
    let p := tzi_ParseNum s
    if p.1 && decide (p.2.1 ≤ 365) then
      tzi_ruleTail true
        { into with rt_month := 1, rt_mdmw := p.2.1 + 1, rt_wday := 0 } p.2.2
    else tzi_ruleTail false into p.2.2
  else tzi_ruleTail false into s

/-- From `tzposix.c`: `defRules[0]` (2nd Sunday in March, 2:00 local). -/
def tzi_defDstRule : tziPosixRuleT := ⟨3, 2, 7, 120⟩

/-- From `tzposix.c`: `defRules[1]` (1st Sunday in November, 2:00 local). -/
def tzi_defStdRule : tziPosixRuleT := ⟨11, 1, 7, 120⟩

/-- The zeroed zone (`memset(into, 0, ...)` before parsing). -/
def tziZeroZone : tziPosixZoneT := ⟨[], [], 0, 0, ⟨0, 0, 0, 0⟩, ⟨0, 0, 0, 0⟩⟩

/-- From `tzposix.c`: `tziFromPosixSpec` (non-NULL arguments, `tail`
covering the whole string).  The DST offset is optional with the cursor
restored when it does not parse; transition rules come in pairs after a
comma; the all-year-DST special case (`J`/day rule reducing to January 1
at 0:00) zeroes the standard rule.  Returns the success of the parse
(NULL versus the end pointer in C), the zone as written, and the
remaining input. -/
def tziFromPosixSpec (s : List Char) : Bool × tziPosixZoneT × List Char :=
  let n1 := tzi_ParseName s
  if n1.1 = false then (false, { tziZeroZone with stdName := n1.2.1 }, n1.2.2)
  else
    let t1 := tzi_ParseTime n1.2.2 false
    let z1 := { tziZeroZone with stdName := n1.2.1, stdOffs := t1.2.1 }
    if t1.1 = false then (false, z1, t1.2.2)
    else
      let n2 := tzi_ParseName t1.2.2
      if n2.1 = false then (true, { z1 with dstName := n2.2.1 }, n2.2.2)
      else
        let z2 := { z1 with
          dstName := n2.2.1
          dstRule := tzi_defDstRule
          stdRule := tzi_defStdRule }
        let t2 := tzi_ParseTime n2.2.2 false
        let z3 := if t2.1 then { z2 with dstOffs := t2.2.1 }
          else { z2 with dstOffs := z2.stdOffs - 60 }
        let s3 := if t2.1 then t2.2.2 else n2.2.2
        if tzi_PeekChar s3 = chI ',' then
          let c1 := tzi_ParseChar s3 (chI ',')
          if c1.1 = false then (false, z3, c1.2)
          else
            let r1 := tzi_ParseRule c1.2 z3.dstRule
            let z4 := { z3 with dstRule := r1.2.1 }
            if r1.1 = false then (false, z4, r1.2.2)
            else
              let c2 := tzi_ParseChar r1.2.2 (chI ',')
              if c2.1 = false then (false, z4, c2.2)
              else
                let r2 := tzi_ParseRule c2.2 z4.stdRule
                let z5 := { z4 with stdRule := r2.2.1 }
                if r2.1 = false then (false, z5, r2.2.2)
                else if z5.dstRule.rt_month = 1 ∧ z5.dstRule.rt_mdmw = 1
                    ∧ z5.dstRule.rt_wday = 0 ∧ z5.dstRule.rt_ttloc = 0 then
                  (true, { z5 with stdRule := ⟨0, 0, 0, 0⟩ }, r2.2.2)
                else (true, z5, r2.2.2)
        else (true, z3, s3)

/-- From `tzposix.c`: `tzi_dm2s` (days and minutes to `int64_t`
seconds). -/
def tzi_dm2s (days : Int) (mins : Int) : Int := 60 * (days * 1440 + mins)

/-- From `tzposix.c`: `tzi_EvalRule` (rule to rank-day number for a
year; week 5 means the last matching weekday of the month, evaluated
through `ucal_WdLE` on day 0 of the next month). -/
def tzi_EvalRule (rule : tziPosixRuleT) (year : Int) : Int :=
  if rule.rt_wday ≠ 0 then
    if rule.rt_mdmw = 5 then
      (ucal_WdLE (ucal_DateToRdnGD year ((rule.rt_month : Int) + 1) 0)
        (rule.rt_wday : Int)).1
    else
      (ucal_WdGE (ucal_DateToRdnGD year (rule.rt_month : Int) 1)
        (rule.rt_wday : Int)).1 + ((rule.rt_mdmw : Int) - 1) * 7
  else
    ucal_DateToRdnGD year (rule.rt_month : Int) (rule.rt_mdmw : Int)

/-- From `tzposix.c`: `tzi_CtxUpdate` (always returns `true` in C; here
the updated context).  `year = tsfrom / 31556952` is a truncating
`int64_t` division narrowed to `int` (modeled by the 32-bit wrap), and
the narrowing of `year` to the `int16_t` parameters of `ucal_YearStartGD`
and `tzi_EvalRule` is the 16-bit wrap. -/
def tzi_CtxUpdate (tzi : tziPosixZoneT) (ctx : tziConvCtxT) (tsfrom : Int) :
    tziConvCtxT :=
  if tsfrom < ctx.trLoBound - 86400 ∨ tsfrom ≥ ctx.trHiBound + 86400 then
    let year0 := ucal_u32_i32 (u32ofInt (Int.tdiv tsfrom 31556952))
    let year := year0 + 1970 - (if tsfrom < year0 * 31556952 then 1 else 0)
    let y16 := (year + 32768) % 65536 - 32768
    let ystart := ucal_YearStartGD y16 - 719163
    let ysnext := ucal_YearStartGD ((year + 1 + 32768) % 65536 - 32768) - 719163
    let dayDST := tzi_EvalRule tzi.dstRule y16 - 719163
    let daySTD := tzi_EvalRule tzi.stdRule y16 - 719163
    { trLoBound := tzi_dm2s ystart (min tzi.stdOffs tzi.dstOffs)
      trHiBound := tzi_dm2s ysnext (max tzi.stdOffs tzi.dstOffs)
      ttDST := tzi_dm2s dayDST (tzi.dstRule.rt_ttloc + tzi.stdOffs)
      ttSTD := tzi_dm2s daySTD (tzi.stdRule.rt_ttloc + tzi.dstOffs) }
  else ctx

/-- From `tzposix.c`: `tziGetInfoLocal2Utc` (non-NULL arguments; the
zone of the context is the first parameter).  Returns the success flag,
the conversion info (zeroed first, exactly the fields the C writes), and
the updated context. -/
def tziGetInfoLocal2Utc (tzi : tziPosixZoneT) (ctx : tziConvCtxT)
    (tsfrom : Int) (hint : tziCvtHintT) : Bool × tziConvInfoT × tziConvCtxT :=
  if tzi.dstRule.rt_month = 0 then
    (true, ⟨0, 0, 0, tzi.stdOffs * 60⟩, ctx)
  else if tzi.stdRule.rt_month = 0 then
    (true, ⟨1, 0, 0, tzi.dstOffs * 60⟩, ctx)
  else
    let ctx1 := tzi_CtxUpdate tzi ctx (tsfrom + tzi.stdOffs * 60)
    let tDA := ctx1.ttDST - tzi.stdOffs * 60
    let tDB := ctx1.ttDST - tzi.dstOffs * 60
    let tSA := ctx1.ttSTD - tzi.dstOffs * 60
    let tSB := ctx1.ttSTD - tzi.stdOffs * 60
    let ttDstA := if tDA > tDB then tDB else tDA
    let ttDstB := if tDA > tDB then tDA else tDB
    let ttStdA := if tDA > tDB then tSA else tSB
    let ttStdB := if tDA > tDB then tSB else tSA
    if ttDstA ≤ tsfrom ∧ tsfrom < ttDstB then
      match hint with
      | .hSTD | .hHrA =>
        (true, ⟨0, if tzi.dstOffs > tzi.stdOffs then 1 else 0, 0,
          tzi.stdOffs * 60⟩, ctx1)
      | .hDST | .hHrB =>
        (true, ⟨1, 0, if tzi.dstOffs > tzi.stdOffs then 1 else 0,
          tzi.dstOffs * 60⟩, ctx1)
      | .hNone => (false, ⟨0, 0, 0, 0⟩, ctx1)
    else if ttStdA ≤ tsfrom ∧ tsfrom < ttStdB then
      match hint with
      | .hSTD | .hHrB =>
        (true, ⟨0, 0, if tzi.dstOffs < tzi.stdOffs then 1 else 0,
          tzi.stdOffs * 60⟩, ctx1)
      | .hDST | .hHrA =>
        (true, ⟨1, if tzi.dstOffs < tzi.stdOffs then 1 else 0, 0,
          tzi.dstOffs * 60⟩, ctx1)
      | .hNone => (false, ⟨0, 0, 0, 0⟩, ctx1)
    else
      let dst : Bool :=
        if ctx1.ttDST < ctx1.ttSTD then
          decide (tsfrom ≥ ttDstB) && decide (tsfrom < ttStdA)
        else
          decide (tsfrom ≥ ttDstB) || decide (tsfrom < ttStdA)
      (true, ⟨if dst then 1 else 0, 0, 0,
        (if dst then tzi.dstOffs else tzi.stdOffs) * 60⟩, ctx1)

/-- The zone parsed from the claim's POSIX string. -/
def c3zone : tziPosixZoneT :=
  (tziFromPosixSpec "CET-1CEST,M3.5.0/2,M10.5.0/3".toList).2.1

/-- C3: for the zone parsed from `"CET-1CEST,M3.5.0/2,M10.5.0/3"` and
`t = 1743301800`, the local-time second count of 2025-03-30 02:30 (a
local time inside the spring gap), `tziGetInfoLocal2Utc` on a fresh
(zeroed) context fails with hint `None`; with hint `STD` it succeeds
with `isDst = 0` and `offs = -3600`; with hint `DST` it succeeds with
`isDst = 1` and `offs = -7200`. -/
theorem c3_local2utc :
    (tziFromPosixSpec "CET-1CEST,M3.5.0/2,M10.5.0/3".toList).1 = true ∧
    (1743301800 : Int) =
      (ucal_DateToRdnGD 2025 3 30 - ucal_YearStartGD 1970) * 86400
        + 2 * 3600 + 30 * 60 ∧
    (tziGetInfoLocal2Utc c3zone ⟨0, 0, 0, 0⟩ 1743301800 .hNone).1 = false ∧
    (tziGetInfoLocal2Utc c3zone ⟨0, 0, 0, 0⟩ 1743301800 .hSTD).1 = true ∧
    (tziGetInfoLocal2Utc c3zone ⟨0, 0, 0, 0⟩ 1743301800 .hSTD).2.1.isDst = 0 ∧
    (tziGetInfoLocal2Utc c3zone ⟨0, 0, 0, 0⟩ 1743301800 .hSTD).2.1.offs = -3600 ∧
    (tziGetInfoLocal2Utc c3zone ⟨0, 0, 0, 0⟩ 1743301800 .hDST).1 = true ∧
    (tziGetInfoLocal2Utc c3zone ⟨0, 0, 0, 0⟩ 1743301800 .hDST).2.1.isDst = 1 ∧
    (tziGetInfoLocal2Utc c3zone ⟨0, 0, 0, 0⟩ 1743301800 .hDST).2.1.offs = -7200 := by
  decide

end UCal
